import Mathlib

/-!
Verification of the diff-to-comment review pipeline.

The JavaScript sources are shallowly embedded: strings become `List Char`,
JS `null`/`undefined` slots become `Option`, the mutable parser objects of
`parseDiff` become an explicit heap (`FileObj`/`HunkObj` stores addressed by
allocation index) because the source mutates objects after pushing references
to them, and the unbounded `while` loop of `checkCustomRules` becomes a
fuel-indexed function (`none` = the loop did not finish within the fuel).
-/

set_option maxRecDepth 100000

namespace CodeReview

/-- JS whitespace as used by `String.prototype.trim` and the regex class
`\s` (the common members; exotic Unicode space separators are not used by
the repository's inputs). -/
def isJsWS (c : Char) : Bool :=
  c = ' ' || c = '\t' || c = '\n' || c = '\r' || c = '\x0b' || c = '\x0c' || c = ' '

/-- Model of `String.prototype.trim`: drop leading and trailing whitespace. -/
def jsTrim (s : List Char) : List Char :=
  ((s.dropWhile isJsWS).reverse.dropWhile isJsWS).reverse

/-- Does `s` start with the pattern `p`? (JS `String.prototype.startsWith`). -/
def startsWithL : List Char → List Char → Bool
  | _, [] => true
  | [], _ :: _ => false
  | c :: s, p :: ps => (c = p) && startsWithL s ps

/-- Does `s` contain `sub` as a contiguous substring? (JS `String.prototype.includes`). -/
def containsSub : List Char → List Char → Bool
  | [], sub => startsWithL [] sub
  | s@(_ :: tl), sub => startsWithL s sub || containsSub tl sub

/-- Prepend a character to the first field of a split result. -/
def consHead (c : Char) : List (List Char) → List (List Char)
  | l :: ls => (c :: l) :: ls
  | [] => [[c]]

/-- Model of JS `String.prototype.split` with a one-character separator:
`"".split(sep)` is `[""]`, separators delimit possibly empty fields. -/
def splitOnChar (sep : Char) : List Char → List (List Char)
  | [] => [[]]
  | c :: cs =>
    if c = sep then [] :: splitOnChar sep cs
    else consHead c (splitOnChar sep cs)

/-- Numeric value of a decimal digit string (the behaviour of JS `parseInt`
on a string of ASCII digits). -/
def natOfDigits (s : List Char) : Nat :=
  s.foldl (fun n c => n * 10 + (c.toNat - 48)) 0

/-- Longest leading run of decimal digits, and the remainder. -/
def digitsTake (s : List Char) : List Char × List Char :=
  (s.takeWhile Char.isDigit, s.dropWhile Char.isDigit)

/-! ## Diff parser data model (src/utils/diffParser.js) -/

/-- One classified diff body line: `type` is the string tag used by the
source (`"addition"`, `"deletion"` or `"context"`), `content` is the raw line
without its one-character marker, and the two line-number fields are `none`
exactly where the source stores `null`. -/
structure LineChange where
  type : List Char
  content : List Char
  oldLineNumber : Option Nat
  newLineNumber : Option Nat
  deriving Repr, DecidableEq

/-- A hunk object as allocated by the parser at a `@@` header. -/
structure HunkObj where
  oldStart : Nat
  oldLength : Nat
  newStart : Nat
  newLength : Nat
  context : List Char
  lines : List LineChange
  deriving Repr, DecidableEq

/-- A file object as allocated by the parser at a `diff --git` header.
`hunkIds` are heap addresses into the hunk store: the source pushes the
mutable hunk object itself, so the embedding records the reference. -/
structure FileObj where
  filename : List Char
  oldFilename : List Char
  hunkIds : List Nat
  additions : Nat
  deletions : Nat
  changes : List LineChange
  deriving Repr, DecidableEq

/-- The fully resolved per-file record returned by `parseDiff`. -/
structure FileChange where
  filename : List Char
  oldFilename : List Char
  hunks : List HunkObj
  additions : Nat
  deletions : Nat
  changes : List LineChange
  deriving Repr, DecidableEq

/-- Parser state: the two heaps model JS object identity (the source pushes
references into `files` and keeps mutating them), `filesArr` holds the heap
addresses pushed so far, and the remaining fields are the loop-carried
variables of `parseDiff`. -/
structure St where
  fileHeap : List FileObj
  hunkHeap : List HunkObj
  filesArr : List Nat
  currentFile : Option Nat
  currentHunk : Option Nat
  oldLineNum : Nat
  newLineNum : Nat
  deriving Repr, DecidableEq

/-- Initial parser state. -/
def initSt : St := ⟨[], [], [], none, none, 0, 0⟩

/-- In-place update of the element at index `i` (JS mutation of the object
a reference points to). Out-of-range indices leave the list unchanged. -/
def modifyAt : List α → Nat → (α → α) → List α
  | [], _, _ => []
  | a :: as, 0, g => g a :: as
  | a :: as, n + 1, g => a :: modifyAt as n g

/-- Match of `/diff --git a\/(.+) b\/(.+)/` anchored at the start of `s`:
backtracking makes the first `(.+)` greedy, so the split is at the last
occurrence of `" b/"` that leaves both groups non-empty.  `lastBsplitAux s p`
tries split positions from `p` downward. -/
def lastBsplitAux (s : List Char) : Nat → Option (List Char × List Char)
  | 0 => none
  | p + 1 =>
    if startsWithL (s.drop (p + 1)) ([' ', 'b', '/']) && decide (p + 4 < s.length) then
      some (s.take (p + 1), s.drop (p + 4))
    else lastBsplitAux s p

/-- Greedy two-group split of the text after `"diff --git a/"`. -/
def lastBsplit (s : List Char) : Option (List Char × List Char) :=
  lastBsplitAux s s.length

/-- The file-header regex tried at one start position. -/
def matchFileAt (s : List Char) : Option (List Char × List Char) :=
  if startsWithL s ("diff --git a/".data) then lastBsplit (s.drop 13) else none

/-- `line.match(/diff --git a\/(.+) b\/(.+)/)`: the regex is unanchored, so
the engine tries successive start positions and returns the leftmost match
(groups: old path, new path). -/
def fileHeaderMatch : List Char → Option (List Char × List Char)
  | [] => matchFileAt []
  | s@(_ :: tl) =>
    match matchFileAt s with
    | some r => some r
    | none => fileHeaderMatch tl

/-- The hunk-header regex `/@@ -(\d+),?(\d*) \+(\d+),?(\d*) @@(.*)/` tried at
one start position; returns the five capture groups as raw text.  Maximal
munch is complete here: shortening `\d*` or skipping a present comma can
never rescue a failed literal `" "`. -/
def matchHunkAt (s : List Char) : Option (List Char × List Char × List Char × List Char × List Char) :=
  if startsWithL s ("@@ -".data) then
    let s1 := s.drop 4
    let d1 := (digitsTake s1).1
    let r1 := (digitsTake s1).2
    if d1 = [] then none
    else
      let r2 := if r1.head? = some ',' then r1.drop 1 else r1
      let d2 := (digitsTake r2).1
      let r3 := (digitsTake r2).2
      if startsWithL r3 ([' ', '+']) then
        let s2 := r3.drop 2
        let d3 := (digitsTake s2).1
        let r4 := (digitsTake s2).2
        if d3 = [] then none
        else
          let r5 := if r4.head? = some ',' then r4.drop 1 else r4
          let d4 := (digitsTake r5).1
          let r6 := (digitsTake r5).2
          if startsWithL r6 ([' ', '@', '@']) then
            some (d1, d2, d3, d4, r6.drop 3)
          else none
      else none
  else none

/-- `line.match(/@@ -(\d+),?(\d*) \+(\d+),?(\d*) @@(.*)/)`: leftmost match
over all start positions. -/
def hunkHeaderMatch : List Char → Option (List Char × List Char × List Char × List Char × List Char)
  | [] => matchHunkAt []
  | s@(_ :: tl) =>
    match matchHunkAt s with
    | some r => some r
    | none => hunkHeaderMatch tl

/-- Is `line` skipped by the metadata branch of `parseDiff`
(`index `/`new file mode`/`deleted file mode`/`---`/`+++` prefixes)? -/
def isMetaLine (line : List Char) : Bool :=
  startsWithL line ("index ".data) || startsWithL line ("new file mode".data) ||
  startsWithL line ("deleted file mode".data) || startsWithL line ("---".data) ||
  startsWithL line ("+++".data)

/-- The `LineChange` built for a content line from the current counters:
`charAt(0)` is the marker (`none` on the empty line), `substring(1)` the
content, and each counter is stamped unless the kind suppresses it. -/
def contentChange (st : St) (line : List Char) : LineChange :=
  { type :=
      if line.head? = some '+' then "addition".data
      else if line.head? = some '-' then "deletion".data
      else "context".data
    content := line.drop 1
    oldLineNumber := if line.head? = some '+' then none else some st.oldLineNum
    newLineNumber := if line.head? = some '-' then none else some st.newLineNum }

/-- Content-line step of `parseDiff` when a file `i` and hunk `k` are open:
push the change into the hunk's `lines` and the file's `changes`, then bump
the owning file's counter and the running line number for the kind. -/
def applyContent (st : St) (i k : Nat) (line : List Char) : St :=
  let change := contentChange st line
  let hunkHeap := modifyAt st.hunkHeap k (fun h => { h with lines := h.lines ++ [change] })
  let fileHeap := modifyAt st.fileHeap i (fun f => { f with changes := f.changes ++ [change] })
  if line.head? = some '+' then
    { st with hunkHeap := hunkHeap
              fileHeap := modifyAt fileHeap i (fun f => { f with additions := f.additions + 1 })
              newLineNum := st.newLineNum + 1 }
  else if line.head? = some '-' then
    { st with hunkHeap := hunkHeap
              fileHeap := modifyAt fileHeap i (fun f => { f with deletions := f.deletions + 1 })
              oldLineNum := st.oldLineNum + 1 }
  else
    { st with hunkHeap := hunkHeap
              fileHeap := fileHeap
              oldLineNum := st.oldLineNum + 1
              newLineNum := st.newLineNum + 1 }

/-- One iteration of the `parseDiff` line loop.  Mirrors the source branch
order: file header, metadata skip, hunk header, content (content lines with
no open file or hunk are dropped).  Note that a `diff --git` line first
pushes the current file and that a failed header match leaves `currentFile`
pointing at the object just pushed. -/
def processLine (st : St) (line : List Char) : St :=
  if startsWithL line ("diff --git".data) then
    let st1 :=
      match st.currentFile with
      | some i => { st with filesArr := st.filesArr ++ [i] }
      | none => st
    match fileHeaderMatch line with
    | some r =>
      let j := st1.fileHeap.length
      { st1 with
          fileHeap := st1.fileHeap ++ [⟨r.2, r.1, [], 0, 0, []⟩]
          currentFile := some j }
    | none => st1
  else if isMetaLine line then st
  else if startsWithL line ("@@".data) then
    match hunkHeaderMatch line with
    | some (d1, d2, d3, d4, g5) =>
      let oldStart := natOfDigits d1
      let newStart := natOfDigits d3
      let hunk : HunkObj :=
        { oldStart := oldStart
          oldLength := if d2 = [] then 1 else natOfDigits d2
          newStart := newStart
          newLength := if d4 = [] then 1 else natOfDigits d4
          context := jsTrim g5
          lines := [] }
      let k := st.hunkHeap.length
      let st1 :=
        { st with hunkHeap := st.hunkHeap ++ [hunk]
                  currentHunk := some k
                  oldLineNum := oldStart
                  newLineNum := newStart }
      match st.currentFile with
      | some i =>
        { st1 with fileHeap := modifyAt st1.fileHeap i (fun f => { f with hunkIds := f.hunkIds ++ [k] }) }
      | none => st1
    | none => st
  else
    match st.currentFile, st.currentHunk with
    | some i, some k => applyContent st i k line
    | _, _ => st

/-- Run the parser loop over all lines. -/
def runLines (lines : List (List Char)) : St :=
  lines.foldl processLine initSt

/-- Fallback file record for a dangling heap address (unreachable for states
produced by the parser). -/
def emptyFileChange : FileChange := ⟨[], [], [], 0, 0, []⟩

/-- Dereference one hunk address. -/
def resolveHunk (st : St) (k : Nat) : HunkObj :=
  match st.hunkHeap.get? k with
  | some h => h
  | none => ⟨0, 0, 0, 0, [], []⟩

/-- Dereference one file address, resolving its hunk references. -/
def resolveFile (st : St) (i : Nat) : FileChange :=
  match st.fileHeap.get? i with
  | some f => ⟨f.filename, f.oldFilename, f.hunkIds.map (resolveHunk st), f.additions, f.deletions, f.changes⟩
  | none => emptyFileChange

/-- The addresses returned at end of input: the pushed references plus the
still-open file, if any. -/
def finalArr (st : St) : List Nat :=
  match st.currentFile with
  | some i => st.filesArr ++ [i]
  | none => st.filesArr

/-- Parse a list of raw diff lines: run the loop, push the still-open file,
and read the pushed references back out of the heap. -/
def parseDiffLines (lines : List (List Char)) : List FileChange :=
  (finalArr (runLines lines)).map (resolveFile (runLines lines))

/-- `parseDiff(diffText)` from src/utils/diffParser.js: empty or
whitespace-only input yields `[]`, otherwise the text is split on newlines
and scanned by the line loop. -/
def parseDiff (diffText : String) : List FileChange :=
  if jsTrim diffText.data = [] then []
  else parseDiffLines (splitOnChar '\n' diffText.data)

/-! ## Heap-update lemmas -/

theorem length_modifyAt (l : List α) (i : Nat) (g : α → α) :
    (modifyAt l i g).length = l.length := by
  induction l generalizing i with
  | nil => rfl
  | cons a as ih =>
    cases i with
    | zero => simp [modifyAt]
    | succ n => simp [modifyAt, ih]

theorem mem_modifyAt {l : List α} {i : Nat} {g : α → α} {x : α}
    (hx : x ∈ modifyAt l i g) : x ∈ l ∨ ∃ y, y ∈ l ∧ x = g y := by
  induction l generalizing i with
  | nil => simp [modifyAt] at hx
  | cons a as ih =>
    cases i with
    | zero =>
      simp [modifyAt] at hx
      rcases hx with h | h
      · exact Or.inr ⟨a, by simp, h⟩
      · exact Or.inl (by simp [h])
    | succ n =>
      simp [modifyAt] at hx
      rcases hx with h | h
      · exact Or.inl (by simp [h])
      · rcases ih h with h2 | ⟨y, hy, hxy⟩
        · exact Or.inl (by simp [h2])
        · exact Or.inr ⟨y, by simp [hy], hxy⟩

theorem modifyAt_modifyAt (l : List α) (i : Nat) (g1 g2 : α → α) :
    modifyAt (modifyAt l i g1) i g2 = modifyAt l i (fun a => g2 (g1 a)) := by
  induction l generalizing i with
  | nil => rfl
  | cons a as ih =>
    cases i with
    | zero => simp [modifyAt]
    | succ n => simp [modifyAt, ih]

theorem get?_modifyAt (l : List α) (i j : Nat) (g : α → α) :
    (modifyAt l i g).get? j = if i = j then (l.get? j).map g else l.get? j := by
  induction l generalizing i j with
  | nil => simp [modifyAt]
  | cons a as ih =>
    cases i with
    | zero =>
      cases j with
      | zero => simp [modifyAt]
      | succ m => simp [modifyAt]
    | succ n =>
      cases j with
      | zero => simp [modifyAt]
      | succ m =>
        simp only [modifyAt, List.get?]
        rw [ih]
        by_cases h : n = m <;> simp [h]

/-! ## Claim C4: additions/deletions counters match the change lists -/

/-- Number of changes with the given kind tag. -/
def countType (t : List Char) (cs : List LineChange) : Nat :=
  (cs.filter (fun c => c.type = t)).length

theorem countType_append (t : List Char) (xs : List LineChange) (c : LineChange) :
    countType t (xs ++ [c]) = countType t xs + (if c.type = t then 1 else 0) := by
  simp [countType, List.filter_append]
  by_cases h : c.type = t <;> simp [h]

/-- Every file object in the heap counts its additions and deletions
correctly. -/
def FilesOk (st : St) : Prop :=
  ∀ f ∈ st.fileHeap,
    f.additions = countType ("addition".data) f.changes ∧
    f.deletions = countType ("deletion".data) f.changes

theorem filesOk_applyContent {st : St} (i k : Nat) (line : List Char)
    (h : FilesOk st) : FilesOk (applyContent st i k line) := by
  intro f hf
  unfold applyContent at hf
  by_cases hp : line.head? = some '+'
  · simp only [hp, if_pos rfl] at hf
    simp only [modifyAt_modifyAt] at hf
    rcases mem_modifyAt hf with hm | ⟨y, hy, rfl⟩
    · exact h f hm
    · rcases h y hy with ⟨ha, hd⟩
      constructor
      · simp [countType_append, ha, contentChange, hp]
      · simp only [countType_append]
        have : (contentChange st line).type ≠ "deletion".data := by
          simp [contentChange, hp]
        simp [this, hd]
  · by_cases hm : line.head? = some '-'
    · simp only [hp, hm, if_neg, if_pos rfl, reduceIte] at hf
      simp only [modifyAt_modifyAt] at hf
      rcases mem_modifyAt hf with hmem | ⟨y, hy, rfl⟩
      · exact h f hmem
      · rcases h y hy with ⟨ha, hd⟩
        constructor
        · simp only [countType_append]
          have : (contentChange st line).type ≠ "addition".data := by
            simp [contentChange, hp, hm]
          simp [this, ha]
        · simp [countType_append, hd, contentChange, hp, hm]
    · simp only [hp, hm, reduceIte] at hf
      rcases mem_modifyAt hf with hmem | ⟨y, hy, rfl⟩
      · exact h f hmem
      · rcases h y hy with ⟨ha, hd⟩
        have ht : (contentChange st line).type = "context".data := by
          simp [contentChange, hp, hm]
        constructor
        · simp only [countType_append]
          have : (contentChange st line).type ≠ "addition".data := by simp [ht]
          simp [this, ha]
        · simp only [countType_append]
          have : (contentChange st line).type ≠ "deletion".data := by simp [ht]
          simp [this, hd]

theorem filesOk_processLine (st : St) (l : List Char) (h : FilesOk st) :
    FilesOk (processLine st l) := by
  unfold processLine
  by_cases h1 : startsWithL l ("diff --git".data)
  · simp only [h1, if_pos]
    cases hcf : st.currentFile with
    | some i =>
      cases hfm : fileHeaderMatch l with
      | some r =>
        intro f hf
        simp only [List.mem_append, List.mem_singleton] at hf
        rcases hf with hf | hf
        · exact h f hf
        · subst hf; constructor <;> rfl
      | none => intro f hf; exact h f hf
    | none =>
      cases hfm : fileHeaderMatch l with
      | some r =>
        intro f hf
        simp only [List.mem_append, List.mem_singleton] at hf
        rcases hf with hf | hf
        · exact h f hf
        · subst hf; constructor <;> rfl
      | none => intro f hf; exact h f hf
  · simp only [h1]
    by_cases h2 : isMetaLine l
    · simp only [h2, if_pos]; exact h
    · simp only [h2]
      by_cases h3 : startsWithL l ("@@".data)
      · simp only [h3, if_pos]
        cases hhm : hunkHeaderMatch l with
        | some g =>
          obtain ⟨d1, d2, d3, d4, g5⟩ := g
          cases hcf : st.currentFile with
          | some i =>
            intro f hf
            rcases mem_modifyAt hf with hm | ⟨y, hy, rfl⟩
            · exact h f hm
            · exact h y hy
          | none => intro f hf; exact h f hf
        | none => exact h
      · simp only [h3]
        cases hcf : st.currentFile with
        | some i =>
          cases hch : st.currentHunk with
          | some k => exact filesOk_applyContent _ _ _ h
          | none => exact h
        | none => exact h

theorem filesOk_foldl (lines : List (List Char)) (st : St) (h : FilesOk st) :
    FilesOk (lines.foldl processLine st) := by
  induction lines generalizing st with
  | nil => exact h
  | cons l ls ih => exact ih _ (filesOk_processLine st l h)

theorem filesOk_runLines (lines : List (List Char)) : FilesOk (runLines lines) :=
  filesOk_foldl lines initSt (by intro f hf; simp [initSt] at hf)

/-- Claim C4: for every input diff and every `FileChange` returned by
`parseDiff`, the `additions` field equals the number of `LineChange` entries
with kind `addition` in the file's flat `changes` sequence, and `deletions`
equals the number with kind `deletion`. -/
theorem claim_C4_counts (diffText : String) (fc : FileChange)
    (hfc : fc ∈ parseDiff diffText) :
    fc.additions = countType ("addition".data) fc.changes ∧
    fc.deletions = countType ("deletion".data) fc.changes := by
  unfold parseDiff at hfc
  split at hfc
  · simp at hfc
  · unfold parseDiffLines at hfc
    rcases List.mem_map.mp hfc with ⟨i, _, rfl⟩
    have hok : FilesOk (runLines (splitOnChar '\n' diffText.data)) := filesOk_runLines _
    unfold resolveFile
    cases hg : (runLines (splitOnChar '\n' diffText.data)).fileHeap.get? i with
    | none => simp [emptyFileChange, countType]
    | some f =>
      have hmem : f ∈ (runLines (splitOnChar '\n' diffText.data)).fileHeap :=
        List.get?_mem hg
      simpa using hok f hmem

/-- Witness for claim C4 at a concrete diff. -/
theorem claim_C4_counts_witness :
    ∃ fc ∈ parseDiff "diff --git a/x b/x\n@@ -1,1 +1,1 @@\n a\n+b\n-c",
      fc.additions = countType ("addition".data) fc.changes ∧
      fc.deletions = countType ("deletion".data) fc.changes := by
  have hlen : 0 < (parseDiff "diff --git a/x b/x\n@@ -1,1 +1,1 @@\n a\n+b\n-c").length := by decide
  obtain ⟨fc, rest, hm⟩ :
      ∃ a l, parseDiff "diff --git a/x b/x\n@@ -1,1 +1,1 @@\n a\n+b\n-c" = a :: l := by
    cases hp : parseDiff "diff --git a/x b/x\n@@ -1,1 +1,1 @@\n a\n+b\n-c" with
    | nil => rw [hp] at hlen; simp at hlen
    | cons a l => exact ⟨a, l, rfl⟩
  have hmem : fc ∈ parseDiff "diff --git a/x b/x\n@@ -1,1 +1,1 @@\n a\n+b\n-c" := by
    rw [hm]; exact List.mem_cons_self fc rest
  exact ⟨fc, hmem, claim_C4_counts _ fc hmem⟩

/-! ## Claim C10: old-file/new-file marker lines are skipped inside hunks -/

/-- Claim C10: any raw line beginning with `---` or `+++` is skipped as
file-marker metadata in any parser state (even with a file and hunk open):
the state is unchanged, so no `LineChange` is produced, no counter is
incremented and the running line numbers do not advance. -/
theorem claim_C10_marker_lines_skipped (st : St) (l : List Char)
    (h : startsWithL l ("---".data) = true ∨ startsWithL l ("+++".data) = true) :
    processLine st l = st := by
  obtain ⟨c, s, rfl, hc⟩ : ∃ c s, l = c :: s ∧ (c = '-' ∨ c = '+') := by
    rcases h with h | h
    · cases l with
      | nil => rw [show startsWithL [] ("---".data) = false from by decide] at h; cases h
      | cons c s =>
        refine ⟨c, s, rfl, Or.inl ?_⟩
        rw [show ("---".data) = '-' :: '-' :: '-' :: [] from by decide] at h
        simp [startsWithL] at h
        exact h.1
    · cases l with
      | nil => rw [show startsWithL [] ("+++".data) = false from by decide] at h; cases h
      | cons c s =>
        refine ⟨c, s, rfl, Or.inr ?_⟩
        rw [show ("+++".data) = '+' :: '+' :: '+' :: [] from by decide] at h
        simp [startsWithL] at h
        exact h.1
  have hng : startsWithL (c :: s) ("diff --git".data) = false := by
    rw [show ("diff --git".data) = 'd' :: ("iff --git".data) from by decide]
    rcases hc with rfl | rfl <;> simp [startsWithL]
  have hmeta : isMetaLine (c :: s) = true := by
    unfold isMetaLine
    rcases h with h | h <;> simp [h]
  unfold processLine
  simp [hng, hmeta]

/-- Witness for claim C10 at a concrete state and line. -/
theorem claim_C10_marker_lines_skipped_witness :
    processLine initSt ("--- a/x".data) = initSt ∧
    processLine initSt ("+++ b/x".data) = initSt :=
  ⟨claim_C10_marker_lines_skipped initSt _ (Or.inl (by decide)),
   claim_C10_marker_lines_skipped initSt _ (Or.inr (by decide))⟩

/-! ## Claim C3: hunk headers seed and advance the line counters -/

/-- Is `l` a content line (reaches the last branch of the parser loop)? -/
def isContentLine (l : List Char) : Bool :=
  !(startsWithL l ("diff --git".data)) && !(isMetaLine l) && !(startsWithL l ("@@".data))

theorem processLine_content (st : St) (i k : Nat) (l : List Char)
    (hcf : st.currentFile = some i) (hch : st.currentHunk = some k)
    (hl : isContentLine l = true) :
    processLine st l = applyContent st i k l := by
  unfold isContentLine at hl
  simp only [Bool.and_eq_true, Bool.not_eq_true'] at hl
  unfold processLine
  simp [hl.1.1, hl.1.2, hl.2, hcf, hch]

theorem applyContent_hunkHeap (st : St) (i k : Nat) (l : List Char) :
    (applyContent st i k l).hunkHeap =
      modifyAt st.hunkHeap k (fun h => { h with lines := h.lines ++ [contentChange st l] }) := by
  unfold applyContent
  by_cases hp : l.head? = some '+'
  · simp [hp]
  · by_cases hm : l.head? = some '-' <;> simp [hp, hm]

theorem applyContent_current (st : St) (i k : Nat) (l : List Char) :
    (applyContent st i k l).currentFile = st.currentFile ∧
    (applyContent st i k l).currentHunk = st.currentHunk := by
  unfold applyContent
  by_cases hp : l.head? = some '+'
  · simp [hp]
  · by_cases hm : l.head? = some '-' <;> simp [hp, hm]

theorem applyContent_newLineNum (st : St) (i k : Nat) (l : List Char)
    (hm : l.head? ≠ some '-') :
    (applyContent st i k l).newLineNum = st.newLineNum + 1 := by
  unfold applyContent
  by_cases hp : l.head? = some '+'
  · simp [hp]
  · simp [hp, hm]

theorem newLineNum_foldl (ls : List (List Char)) (st : St) (i k : Nat)
    (hcf : st.currentFile = some i) (hch : st.currentHunk = some k)
    (hls : ∀ l ∈ ls, isContentLine l = true ∧ l.head? ≠ some '-') :
    (ls.foldl processLine st).newLineNum = st.newLineNum + ls.length := by
  induction ls generalizing st with
  | nil => simp
  | cons l ls ih =>
    have hl := hls l (by simp)
    have hstep : processLine st l = applyContent st i k l :=
      processLine_content st i k l hcf hch hl.1
    have hcur := applyContent_current st i k l
    have hnew := applyContent_newLineNum st i k l hl.2
    simp only [List.foldl_cons, hstep]
    rw [ih (applyContent st i k l) (by rw [hcur.1, hcf]) (by rw [hcur.2, hch])
        (fun m hm => hls m (by simp [hm]))]
    rw [hnew]
    simp [Nat.add_assoc, Nat.add_comm 1 ls.length]

/-- Claim C3: a valid hunk header `@@ -10,5 +20,7 @@` seeds the running
counters at 10/20; the first content line under it is stamped
`oldLineNumber = 10` (unless it is an addition) and `newLineNumber = 20`
(unless it is a deletion) and is recorded as the new hunk's first line; and
after any run of content lines that are additions or context (no deletions),
`newLineNum` has advanced from 20 by exactly the number of lines. -/
theorem claim_C3_hunk_line_numbers (st : St) (i : Nat) (hcf : st.currentFile = some i) :
    (processLine st ("@@ -10,5 +20,7 @@".data)).oldLineNum = 10 ∧
    (processLine st ("@@ -10,5 +20,7 @@".data)).newLineNum = 20 ∧
    (∀ l, isContentLine l = true →
      (contentChange (processLine st ("@@ -10,5 +20,7 @@".data)) l).oldLineNumber =
        (if l.head? = some '+' then none else some 10) ∧
      (contentChange (processLine st ("@@ -10,5 +20,7 @@".data)) l).newLineNumber =
        (if l.head? = some '-' then none else some 20) ∧
      ((processLine (processLine st ("@@ -10,5 +20,7 @@".data)) l).hunkHeap.get?
          st.hunkHeap.length).map HunkObj.lines =
        some [contentChange (processLine st ("@@ -10,5 +20,7 @@".data)) l]) ∧
    (∀ ls : List (List Char), (∀ l ∈ ls, isContentLine l = true ∧ l.head? ≠ some '-') →
      ((ls.foldl processLine (processLine st ("@@ -10,5 +20,7 @@".data)))).newLineNum =
        20 + ls.length) := by
  have hmatch : hunkHeaderMatch ("@@ -10,5 +20,7 @@".data) =
      some ("10".data, "5".data, "20".data, "7".data, []) := by decide
  have hhd : processLine st ("@@ -10,5 +20,7 @@".data) =
      { st with
          hunkHeap := st.hunkHeap ++ [⟨10, 5, 20, 7, [], []⟩]
          currentHunk := some st.hunkHeap.length
          oldLineNum := 10
          newLineNum := 20
          fileHeap := modifyAt st.fileHeap i (fun f => { f with hunkIds := f.hunkIds ++ [st.hunkHeap.length] }) } := by
    unfold processLine
    rw [show startsWithL ("@@ -10,5 +20,7 @@".data) ("diff --git".data) = false from by decide]
    rw [show isMetaLine ("@@ -10,5 +20,7 @@".data) = false from by decide]
    rw [show startsWithL ("@@ -10,5 +20,7 @@".data) ("@@".data) = true from by decide]
    rw [hmatch, hcf]
    simp [show natOfDigits ("10".data) = 10 from by decide,
          show natOfDigits ("20".data) = 20 from by decide,
          show natOfDigits ("5".data) = 5 from by decide,
          show natOfDigits ("7".data) = 7 from by decide,
          show ("5".data : List Char) ≠ [] from by decide,
          show ("7".data : List Char) ≠ [] from by decide,
          show jsTrim ([] : List Char) = [] from by decide]
  refine ⟨by rw [hhd], by rw [hhd], ?_, ?_⟩
  · intro l hl
    refine ⟨by simp [contentChange, hhd], by simp [contentChange, hhd], ?_⟩
    have hstep : processLine (processLine st ("@@ -10,5 +20,7 @@".data)) l =
        applyContent (processLine st ("@@ -10,5 +20,7 @@".data)) i st.hunkHeap.length l := by
      apply processLine_content
      · rw [hhd]; exact hcf
      · rw [hhd]
      · exact hl
    rw [hstep, applyContent_hunkHeap, get?_modifyAt]
    simp only [if_pos rfl]
    rw [hhd]
    simp [List.get?_concat_length]
  · intro ls hls
    have h20 : (processLine st ("@@ -10,5 +20,7 @@".data)).newLineNum = 20 := by rw [hhd]
    rw [newLineNum_foldl ls _ i st.hunkHeap.length (by rw [hhd]; exact hcf) (by rw [hhd]) hls, h20]

/-- Witness for claim C3 at a concrete state and content lines. -/
theorem claim_C3_hunk_line_numbers_witness :
    (processLine (runLines [("diff --git a/x b/x".data)]) ("@@ -10,5 +20,7 @@".data)).oldLineNum = 10 ∧
    (processLine (runLines [("diff --git a/x b/x".data)]) ("@@ -10,5 +20,7 @@".data)).newLineNum = 20 ∧
    ((([(" ctx".data), ("+a".data), ("+b".data), (" d".data), ("+e".data), (" f".data),
        ("+g".data)] : List (List Char)).foldl processLine
        (processLine (runLines [("diff --git a/x b/x".data)]) ("@@ -10,5 +20,7 @@".data)))).newLineNum = 27 := by
  have h := claim_C3_hunk_line_numbers (runLines [("diff --git a/x b/x".data)]) 0 (by decide)
  refine ⟨h.1, h.2.1, ?_⟩
  have h7 := h.2.2.2 [(" ctx".data), ("+a".data), ("+b".data), (" d".data), ("+e".data),
      (" f".data), ("+g".data)] (by decide)
  simpa using h7

/-! ## Claim C1: behaviour after an unmatched `diff --git` header -/

/-- Is `l` a file-header line that actually opens a new file (marker prefix
and a successful `a/<path> b/<path>` match)? -/
def validFileHeaderB (l : List Char) : Bool :=
  startsWithL l ("diff --git".data) && (fileHeaderMatch l).isSome

/-- Claim C1 counterexample: after the malformed header `diff --git a-bad`,
the content line `+b` is NOT dropped — `currentFile` still references the
previously pushed file object, so the addition appears in a `FileChange` of
the returned sequence (and that file is returned twice). -/
theorem claim_C1_counterexample :
    ∃ fc ∈ parseDiff "diff --git a/x b/x\n@@ -1,1 +1,1 @@\n a\ndiff --git a-bad\n+b",
      (⟨"addition".data, ['b'], none, some 2⟩ : LineChange) ∈ fc.changes := by
  decide

/-- Hunk-reference well-formedness: every hunk address stored in a file
object points into the hunk heap. -/
def WfSt (st : St) : Prop :=
  ∀ f ∈ st.fileHeap, ∀ k ∈ f.hunkIds, k < st.hunkHeap.length

theorem wf_applyContent {st : St} (i k : Nat) (l : List Char)
    (h : WfSt st) : WfSt (applyContent st i k l) := by
  have hlen : (applyContent st i k l).hunkHeap.length = st.hunkHeap.length := by
    rw [applyContent_hunkHeap, length_modifyAt]
  intro f hf
  rw [hlen]
  unfold applyContent at hf
  by_cases hp : l.head? = some '+'
  · simp only [hp, if_pos rfl] at hf
    simp only [modifyAt_modifyAt] at hf
    rcases mem_modifyAt hf with hm | ⟨y, hy, rfl⟩
    · exact h f hm
    · exact h y hy
  · by_cases hm : l.head? = some '-'
    · simp only [hp, hm, reduceIte] at hf
      simp only [modifyAt_modifyAt] at hf
      rcases mem_modifyAt hf with hmem | ⟨y, hy, rfl⟩
      · exact h f hmem
      · exact h y hy
    · simp only [hp, hm, reduceIte] at hf
      rcases mem_modifyAt hf with hmem | ⟨y, hy, rfl⟩
      · exact h f hmem
      · exact h y hy

theorem wf_processLine (st : St) (l : List Char) (h : WfSt st) :
    WfSt (processLine st l) := by
  by_cases h1 : startsWithL l ("diff --git".data)
  · cases hcf : st.currentFile with
    | some i =>
      cases hfm : fileHeaderMatch l with
      | some r =>
        have hstate : processLine st l = { st with
            filesArr := st.filesArr ++ [i]
            fileHeap := st.fileHeap ++ [⟨r.2, r.1, [], 0, 0, []⟩]
            currentFile := some st.fileHeap.length } := by
          unfold processLine; simp [h1, hcf, hfm]
        rw [hstate]
        intro f hf
        simp only [List.mem_append, List.mem_singleton] at hf
        rcases hf with hf | hf
        · exact h f hf
        · subst hf; intro k hk; simp at hk
      | none =>
        have hstate : processLine st l = { st with filesArr := st.filesArr ++ [i] } := by
          unfold processLine; simp [h1, hcf, hfm]
        rw [hstate]; exact h
    | none =>
      cases hfm : fileHeaderMatch l with
      | some r =>
        have hstate : processLine st l = { st with
            fileHeap := st.fileHeap ++ [⟨r.2, r.1, [], 0, 0, []⟩]
            currentFile := some st.fileHeap.length } := by
          unfold processLine; simp [h1, hcf, hfm]
        rw [hstate]
        intro f hf
        simp only [List.mem_append, List.mem_singleton] at hf
        rcases hf with hf | hf
        · exact h f hf
        · subst hf; intro k hk; simp at hk
      | none =>
        have hstate : processLine st l = st := by
          unfold processLine; simp [h1, hcf, hfm]
        rw [hstate]; exact h
  · by_cases h2 : isMetaLine l
    · have hstate : processLine st l = st := by
        unfold processLine; simp [h1, h2]
      rw [hstate]; exact h
    · by_cases h3 : startsWithL l ("@@".data)
      · cases hhm : hunkHeaderMatch l with
        | some g =>
          obtain ⟨d1, d2, d3, d4, g5⟩ := g
          cases hcf : st.currentFile with
          | some i =>
            have hstate : processLine st l = { st with
                hunkHeap := st.hunkHeap ++ [⟨natOfDigits d1,
                  if d2 = [] then 1 else natOfDigits d2, natOfDigits d3,
                  if d4 = [] then 1 else natOfDigits d4, jsTrim g5, []⟩]
                currentHunk := some st.hunkHeap.length
                oldLineNum := natOfDigits d1
                newLineNum := natOfDigits d3
                fileHeap := modifyAt st.fileHeap i
                  (fun f => { f with hunkIds := f.hunkIds ++ [st.hunkHeap.length] }) } := by
              unfold processLine; simp [h1, h2, h3, hhm, hcf]
            rw [hstate]
            intro f hf k hk
            simp only [List.length_append, List.length_singleton]
            rcases mem_modifyAt hf with hm | ⟨y, hy, rfl⟩
            · exact Nat.lt_succ_of_lt (h f hm k hk)
            · simp only [List.mem_append, List.mem_singleton] at hk
              rcases hk with hk | hk
              · exact Nat.lt_succ_of_lt (h y hy k hk)
              · subst hk; exact Nat.lt_succ_self _
          | none =>
            have hstate : processLine st l = { st with
                hunkHeap := st.hunkHeap ++ [⟨natOfDigits d1,
                  if d2 = [] then 1 else natOfDigits d2, natOfDigits d3,
                  if d4 = [] then 1 else natOfDigits d4, jsTrim g5, []⟩]
                currentHunk := some st.hunkHeap.length
                oldLineNum := natOfDigits d1
                newLineNum := natOfDigits d3 } := by
              unfold processLine; simp [h1, h2, h3, hhm, hcf]
            rw [hstate]
            intro f hf k hk
            simp only [List.length_append, List.length_singleton]
            exact Nat.lt_succ_of_lt (h f hf k hk)
        | none =>
          have hstate : processLine st l = st := by
            unfold processLine; simp [h1, h2, h3, hhm]
          rw [hstate]; exact h
      · cases hcf : st.currentFile with
        | some i =>
          cases hch : st.currentHunk with
          | some k =>
            have hstate : processLine st l = applyContent st i k l := by
              unfold processLine; simp [h1, h2, h3, hcf, hch]
            rw [hstate]; exact wf_applyContent _ _ _ h
          | none =>
            have hstate : processLine st l = st := by
              unfold processLine; simp [h1, h2, h3, hcf, hch]
            rw [hstate]; exact h
        | none =>
          have hstate : processLine st l = st := by
            unfold processLine; simp [h1, h2, h3, hcf]
          rw [hstate]; exact h

theorem wf_foldl (lines : List (List Char)) (st : St) (h : WfSt st) :
    WfSt (lines.foldl processLine st) := by
  induction lines generalizing st with
  | nil => exact h
  | cons l ls ih => exact ih _ (wf_processLine st l h)

theorem wf_runLines (lines : List (List Char)) : WfSt (runLines lines) :=
  wf_foldl lines initSt (by intro f hf; simp [initSt] at hf)

/-- An invalid file-header line seen with no open file leaves the state
entirely unchanged. -/
theorem processLine_badHeader_noFile (st : St) (l : List Char)
    (hcur : st.currentFile = none)
    (hpre : startsWithL l ("diff --git".data) = true)
    (hnm : fileHeaderMatch l = none) :
    processLine st l = st := by
  unfold processLine
  simp [hpre, hcur, hnm]

/-- While no file is open, lines containing no valid file header never touch
the file heap, the output array or `currentFile`; only the hunk heap can
grow (by hunks attached to no file). -/
theorem noHeader_foldl (ls : List (List Char)) (st : St)
    (hcur : st.currentFile = none)
    (h : ∀ l ∈ ls, validFileHeaderB l = false) :
    (ls.foldl processLine st).fileHeap = st.fileHeap ∧
    (ls.foldl processLine st).filesArr = st.filesArr ∧
    (ls.foldl processLine st).currentFile = none ∧
    ∃ ext, (ls.foldl processLine st).hunkHeap = st.hunkHeap ++ ext := by
  induction ls generalizing st with
  | nil => exact ⟨rfl, rfl, hcur, [], by simp⟩
  | cons l ls ih =>
    have hl := h l (by simp)
    have hstep : (processLine st l).fileHeap = st.fileHeap ∧
        (processLine st l).filesArr = st.filesArr ∧
        (processLine st l).currentFile = none ∧
        ∃ ext, (processLine st l).hunkHeap = st.hunkHeap ++ ext := by
      by_cases h1 : startsWithL l ("diff --git".data)
      · have hnm : fileHeaderMatch l = none := by
          cases hfm : fileHeaderMatch l with
          | none => rfl
          | some r =>
            unfold validFileHeaderB at hl
            rw [h1, hfm] at hl
            simp at hl
        rw [processLine_badHeader_noFile st l hcur h1 hnm]
        exact ⟨rfl, rfl, hcur, [], by simp⟩
      · by_cases h2 : isMetaLine l
        · have hstate : processLine st l = st := by
            unfold processLine; simp [h1, h2]
          rw [hstate]; exact ⟨rfl, rfl, hcur, [], by simp⟩
        · by_cases h3 : startsWithL l ("@@".data)
          · cases hhm : hunkHeaderMatch l with
            | some g =>
              obtain ⟨d1, d2, d3, d4, g5⟩ := g
              have hstate : processLine st l = { st with
                  hunkHeap := st.hunkHeap ++ [⟨natOfDigits d1,
                    if d2 = [] then 1 else natOfDigits d2, natOfDigits d3,
                    if d4 = [] then 1 else natOfDigits d4, jsTrim g5, []⟩]
                  currentHunk := some st.hunkHeap.length
                  oldLineNum := natOfDigits d1
                  newLineNum := natOfDigits d3 } := by
                unfold processLine; simp [h1, h2, h3, hhm, hcur]
              rw [hstate]
              exact ⟨rfl, rfl, hcur, [_], rfl⟩
            | none =>
              have hstate : processLine st l = st := by
                unfold processLine; simp [h1, h2, h3, hhm]
              rw [hstate]; exact ⟨rfl, rfl, hcur, [], by simp⟩
          · have hstate : processLine st l = st := by
              unfold processLine; simp [h1, h2, h3, hcur]
            rw [hstate]; exact ⟨rfl, rfl, hcur, [], by simp⟩
    rcases hstep with ⟨hf1, hf2, hf3, ext1, hf4⟩
    rcases ih (processLine st l) hf3 (fun m hm => h m (by simp [hm])) with
      ⟨g1, g2, g3, ext2, g4⟩
    refine ⟨by rw [List.foldl_cons, g1, hf1], by rw [List.foldl_cons, g2, hf2],
      by rw [List.foldl_cons]; exact g3, ext1 ++ ext2, ?_⟩
    rw [List.foldl_cons, g4, hf4, List.append_assoc]

/-- Resolution only reads heap cells, so extending the hunk heap and keeping
the file heap changes nothing for well-formed states. -/
theorem resolveFile_ext (st st2 : St) (hfh : st2.fileHeap = st.fileHeap)
    (ext : List HunkObj) (hhh : st2.hunkHeap = st.hunkHeap ++ ext)
    (hwf : WfSt st) (i : Nat) : resolveFile st2 i = resolveFile st i := by
  unfold resolveFile
  rw [hfh]
  cases hg : st.fileHeap.get? i with
  | none => rfl
  | some f =>
    have hmem : f ∈ st.fileHeap := List.get?_mem hg
    have hmap : f.hunkIds.map (resolveHunk st2) = f.hunkIds.map (resolveHunk st) := by
      apply List.map_congr_left
      intro k hk
      unfold resolveHunk
      rw [hhh, List.get?_append (hwf f hmem k hk)]
    simp [hmap]

/-- Claim C1 (amended): when a `diff --git` line fails the
`a/<path> b/<path>` pattern while NO file is currently open, no new
`FileChange` is opened and all lines up to the next valid file header
contribute nothing: the parse result equals that of the input truncated
before the malformed header.  (When a file IS open the original claim
fails: the open file was just pushed and stays current, so subsequent
content lines do land in a returned `FileChange` — see the
counterexample.) -/
theorem claim_C1_unmatched_header_drops_body (pre mid : List (List Char)) (bad : List Char)
    (hcur : (runLines pre).currentFile = none)
    (hbad : startsWithL bad ("diff --git".data) = true)
    (hnm : fileHeaderMatch bad = none)
    (hmid : ∀ l ∈ mid, validFileHeaderB l = false) :
    parseDiffLines (pre ++ bad :: mid) = parseDiffLines pre := by
  have hrun : runLines (pre ++ bad :: mid) = mid.foldl processLine (runLines pre) := by
    unfold runLines
    rw [List.foldl_append, List.foldl_cons,
      processLine_badHeader_noFile (List.foldl processLine initSt pre) bad hcur hbad hnm]
  rcases noHeader_foldl mid (runLines pre) hcur hmid with ⟨hf1, hf2, hf3, ext, hf4⟩
  unfold parseDiffLines finalArr
  rw [hrun, hf3, hcur, hf2]
  apply List.map_congr_left
  intro i _
  exact resolveFile_ext (runLines pre) _ hf1 ext hf4 (wf_runLines pre) i

/-- Witness for the amended claim C1 at a concrete malformed header. -/
theorem claim_C1_unmatched_header_drops_body_witness :
    parseDiffLines ([] ++ ("diff --git junk".data) ::
      [("@@ -1,1 +1,1 @@".data), ("+x".data), (" y".data)]) = parseDiffLines [] :=
  claim_C1_unmatched_header_drops_body [] _ _ (by decide) (by decide) (by decide) (by decide)

/-! ## Rule engine (checkCustomRules / findLineNumber)

The source compiles `rule.pattern` with `new RegExp(pattern, 'g')` and loops
on `regex.exec`.  The embedding covers literal (metacharacter-free)
patterns, for which JS regex search coincides with plain substring search;
the `try/catch` for invalid patterns is omitted because literal patterns
always compile.  The `g`-flag `exec` protocol is modelled exactly: a search
starts at `lastIndex`, and after a match `lastIndex` becomes match start
plus match length — so an empty match does NOT advance it.  The unbounded
`while` loop gets a fuel parameter; `none` means the loop did not finish
within the fuel. -/

/-- A custom rule record (`rules.custom` entry). -/
structure Rule where
  name : List Char
  pattern : List Char
  message : List Char
  severity : Option (List Char)
  deriving Repr, DecidableEq

/-- A rule violation record as pushed by `checkCustomRules` (`match` is
spelled `matchText`; it holds `match[0]`, the matched text). -/
structure Violation where
  rule : List Char
  message : List Char
  severity : List Char
  line : Nat
  matchText : List Char
  deriving Repr, DecidableEq

/-- `findLineNumber(content, index)`: count of `split('\n')` segments of the
substring before `index` (a 1-based line number). -/
def findLineNumber (content : List Char) (index : Nat) : Nat :=
  (splitOnChar '\n' (content.take index)).length

/-- First match position of the literal pattern `p` in `content` at index
`i` or later; `fuel` bounds the scan (callers pass `content.length + 1`,
which always suffices). -/
def findMatchFromAux (p content : List Char) : Nat → Nat → Option Nat
  | 0, _ => none
  | fuel + 1, i =>
    if i + p.length ≤ content.length then
      if (content.drop i).take p.length = p then some i
      else findMatchFromAux p content fuel (i + 1)
    else none

/-- `regex.exec` for a literal pattern: search from `lastIndex`, `none` when
no further match exists. -/
def findMatchFrom (p content : List Char) (i : Nat) : Option Nat :=
  findMatchFromAux p content (content.length + 1) i

/-- `rule.severity || 'medium'` (a present-but-empty severity string is
falsy in JS and also falls back). -/
def ruleSeverity (r : Rule) : List Char :=
  match r.severity with
  | some s => if s = [] then "medium".data else s
  | none => "medium".data

/-- The `while ((match = regex.exec(addedContent)) !== null)` loop of
`checkCustomRules` for one rule: `lastIndex` is the second argument, and
after a match it becomes `idx + pattern.length` (no empty-match guard, as
in the source).  `none` = the loop did not terminate within `fuel`. -/
def ruleExecLoop (r : Rule) (content : List Char) : Nat → Nat → Option (List Violation)
  | 0, _ => none
  | fuel + 1, lastIndex =>
    match findMatchFrom r.pattern content lastIndex with
    | none => some []
    | some idx =>
      match ruleExecLoop r content fuel (idx + r.pattern.length) with
      | none => none
      | some vs =>
        some (⟨r.name, r.message, ruleSeverity r, findLineNumber content idx, r.pattern⟩ :: vs)

/-- `array.join('\n')`. -/
def joinNL : List (List Char) → List Char
  | [] => []
  | [x] => x
  | x :: xs => x ++ '\n' :: joinNL xs

/-- The concatenated content of the Addition lines of a file, joined by
newlines (the `addedContent` local of `checkCustomRules`). -/
def addedContentOf (file : FileChange) : List Char :=
  joinNL ((file.changes.filter (fun c => c.type = "addition".data)).map (fun c => c.content))

/-- The per-rule loop of `checkCustomRules` over the rule list, violations
accumulated in rule order. -/
def checkRulesAux (content : List Char) (rules : List Rule) (fuel : Nat) : Option (List Violation) :=
  match rules with
  | [] => some []
  | r :: rs =>
    match ruleExecLoop r content fuel 0 with
    | none => none
    | some vs =>
      match checkRulesAux content rs fuel with
      | none => none
      | some rest => some (vs ++ rest)

/-- `checkCustomRules(file, customRules)`: an absent/empty rule list yields
`[]` immediately, otherwise every rule is matched against the concatenated
addition text. -/
def checkCustomRules (file : FileChange) (customRules : List Rule) (fuel : Nat) :
    Option (List Violation) :=
  if customRules.length = 0 then some []
  else checkRulesAux (addedContentOf file) customRules fuel

/-! ## Claim C2: the exec loop does not terminate on empty matches -/

/-- A file with the single added line `a`. -/
def c2File : FileChange :=
  ⟨"f.js".data, "f.js".data, [], 1, 0, [⟨"addition".data, ['a'], none, some 1⟩]⟩

/-- A rule whose pattern is the empty regex, which matches the empty string
at every position. -/
def emptyPatternRule : Rule := ⟨"r".data, [], "m".data, none⟩

theorem ruleExecLoop_empty_pattern (fuel : Nat) :
    ruleExecLoop emptyPatternRule (['a']) fuel 0 = none := by
  induction fuel with
  | zero => rfl
  | succ n ih =>
    unfold ruleExecLoop
    rw [show findMatchFrom emptyPatternRule.pattern (['a']) 0 = some 0 from by decide]
    simp only [emptyPatternRule] at ih ⊢
    simp [ih]

/-- Claim C2 refutation: with a rule whose pattern matches the empty string,
`regex.exec` keeps matching at the same `lastIndex` (an empty match does not
advance it), so the `while` loop of `checkCustomRules` never exits — no fuel
makes it return.  The claim asserts termination for every compiling
pattern, including empty-matching ones; the empty pattern compiles yet the
loop diverges. -/
theorem claim_C2_empty_match_diverges (fuel : Nat) :
    checkCustomRules c2File [emptyPatternRule] fuel = none := by
  unfold checkCustomRules
  rw [if_neg (by decide)]
  unfold checkRulesAux
  rw [show addedContentOf c2File = ['a'] from by decide]
  rw [ruleExecLoop_empty_pattern fuel]

/-! ## Claim C5: violation line numbers -/

theorem splitOnChar_ne_nil (sep : Char) (s : List Char) : splitOnChar sep s ≠ [] := by
  cases s with
  | nil => simp [splitOnChar]
  | cons c cs =>
    simp only [splitOnChar]
    split
    · simp
    · cases hs : splitOnChar sep cs <;> simp [consHead]

theorem length_consHead (c : Char) (xs : List (List Char)) (hne : xs ≠ []) :
    (consHead c xs).length = xs.length := by
  cases xs with
  | nil => exact absurd rfl hne
  | cons l ls => simp [consHead]

theorem splitOnChar_length (sep : Char) (s : List Char) :
    (splitOnChar sep s).length = s.count sep + 1 := by
  induction s with
  | nil => simp [splitOnChar]
  | cons c cs ih =>
    by_cases h : c = sep
    · subst h
      simp [splitOnChar, List.count_cons, ih]
    · simp only [splitOnChar, if_neg h]
      rw [length_consHead c _ (splitOnChar_ne_nil sep cs), ih, List.count_cons]
      simp [h]

theorem findLineNumber_eq_count (content : List Char) (idx : Nat) :
    findLineNumber content idx = (content.take idx).count '\n' + 1 := by
  unfold findLineNumber
  rw [splitOnChar_length]

theorem findMatchFromAux_sound {p content : List Char} {fuel i idx : Nat}
    (h : findMatchFromAux p content fuel i = some idx) :
    (content.drop idx).take p.length = p ∧ idx + p.length ≤ content.length := by
  induction fuel generalizing i with
  | zero => simp [findMatchFromAux] at h
  | succ n ih =>
    unfold findMatchFromAux at h
    by_cases h1 : i + p.length ≤ content.length
    · rw [if_pos h1] at h
      by_cases h2 : (content.drop i).take p.length = p
      · rw [if_pos h2] at h
        have : i = idx := by simpa using h
        subst this
        exact ⟨h2, h1⟩
      · rw [if_neg h2] at h
        exact ih h
    · rw [if_neg h1] at h
      cases h

theorem ruleExecLoop_line_numbers {r : Rule} {content : List Char} {fuel li : Nat}
    {vs : List Violation} (h : ruleExecLoop r content fuel li = some vs) :
    ∀ v ∈ vs, ∃ idx, (content.drop idx).take r.pattern.length = r.pattern ∧
      v.line = (content.take idx).count '\n' + 1 := by
  induction fuel generalizing li vs with
  | zero => simp [ruleExecLoop] at h
  | succ n ih =>
    unfold ruleExecLoop at h
    split at h
    · have : vs = [] := by simpa using h.symm
      subst this
      intro v hv
      simp at hv
    · next idx hm =>
      split at h
      · cases h
      · next vs2 hrec =>
        have hvs : vs = ⟨r.name, r.message, ruleSeverity r, findLineNumber content idx,
            r.pattern⟩ :: vs2 := by simpa using h.symm
        subst hvs
        intro v hv
        rcases List.mem_cons.mp hv with rfl | hv2
        · exact ⟨idx, (findMatchFromAux_sound hm).1, by simp [findLineNumber_eq_count]⟩
        · exact ih hrec v hv2

theorem checkRulesAux_line_numbers {content : List Char} {rules : List Rule}
    {fuel : Nat} {vs : List Violation} (h : checkRulesAux content rules fuel = some vs) :
    ∀ v ∈ vs, ∃ r ∈ rules, ∃ idx,
      (content.drop idx).take r.pattern.length = r.pattern ∧
      v.line = (content.take idx).count '\n' + 1 := by
  induction rules generalizing vs with
  | nil =>
    unfold checkRulesAux at h
    have : vs = [] := by simpa using h.symm
    subst this
    intro v hv
    simp at hv
  | cons r rs ih =>
    unfold checkRulesAux at h
    split at h
    · cases h
    · next vs1 h1 =>
      split at h
      · cases h
      · next vs2 h2 =>
        have hvs : vs = vs1 ++ vs2 := by simpa using h.symm
        subst hvs
        intro v hv
        rcases List.mem_append.mp hv with hv1 | hv2
        · rcases ruleExecLoop_line_numbers h1 v hv1 with ⟨idx, hmt, hl⟩
          exact ⟨r, by simp, idx, hmt, hl⟩
        · rcases ih h2 v hv2 with ⟨r2, hr2, rest⟩
          exact ⟨r2, by simp [hr2], rest⟩

/-- The three-addition file of the C5 example (`"a\nTODO\nb"`). -/
def todoFile : FileChange :=
  ⟨"f.js".data, "f.js".data, [], 3, 0,
   [⟨"addition".data, "a".data, none, some 1⟩,
    ⟨"addition".data, "TODO".data, none, some 2⟩,
    ⟨"addition".data, "b".data, none, some 3⟩]⟩

/-- The `TODO` rule of the C5 example. -/
def todoRule : Rule := ⟨"no-todo".data, "TODO".data, "msg".data, none⟩

/-- Claim C5: every violation reported by `checkCustomRules` carries
`line` = number of newline characters in the concatenated addition text
before the match start, plus 1; and the rule `TODO` on addition text
`"a\nTODO\nb"` yields exactly one violation with `line = 2`. -/
theorem claim_C5_violation_line_numbers :
    (∀ (file : FileChange) (rules : List Rule) (fuel : Nat) (vs : List Violation),
      checkCustomRules file rules fuel = some vs →
      ∀ v ∈ vs, ∃ r ∈ rules, ∃ idx,
        ((addedContentOf file).drop idx).take r.pattern.length = r.pattern ∧
        v.line = ((addedContentOf file).take idx).count '\n' + 1) ∧
    checkCustomRules todoFile [todoRule] 4 =
      some [⟨"no-todo".data, "msg".data, "medium".data, 2, "TODO".data⟩] := by
  constructor
  · intro file rules fuel vs h v hv
    unfold checkCustomRules at h
    by_cases hr : rules.length = 0
    · rw [if_pos hr] at h
      have : vs = [] := by simpa using h.symm
      subst this
      simp at hv
    · rw [if_neg hr] at h
      exact checkRulesAux_line_numbers h v hv
  · decide

/-- Witness for claim C5: the general statement applied at the concrete
TODO example. -/
theorem claim_C5_violation_line_numbers_witness :
    ∃ r ∈ [todoRule], ∃ idx,
      ((addedContentOf todoFile).drop idx).take r.pattern.length = r.pattern ∧
      (⟨"no-todo".data, "msg".data, "medium".data, 2, "TODO".data⟩ : Violation).line =
        ((addedContentOf todoFile).take idx).count '\n' + 1 :=
  claim_C5_violation_line_numbers.1 todoFile [todoRule] 4
    [⟨"no-todo".data, "msg".data, "medium".data, 2, "TODO".data⟩]
    claim_C5_violation_line_numbers.2
    ⟨"no-todo".data, "msg".data, "medium".data, 2, "TODO".data⟩ (by decide)

/-! ## JSON values and `JSON.parse` (for parseReviewResponse)

JS values flowing through `parseReviewResponse` are modelled by `Json`;
`none : Option Json` stands for `undefined` where a lookup can miss.
Numbers are kept as mantissa and a power-of-ten exponent (`num m e` denotes
`m * 10^e`), which represents every JSON numeral exactly. -/

inductive Json where
  | null : Json
  | bool (b : Bool) : Json
  | num (mantissa : Int) (exp10 : Int) : Json
  | str (s : List Char) : Json
  | arr (elems : List Json) : Json
  | obj (fields : List (List Char × Json)) : Json

/-- The four JSON whitespace characters accepted by `JSON.parse`. -/
def jsonWsChar (c : Char) : Bool :=
  c = ' ' || c = '\t' || c = '\n' || c = '\r'

def skipJsonWs (s : List Char) : List Char := s.dropWhile jsonWsChar

def lbrace : Char := Char.ofNat 123

def rbrace : Char := Char.ofNat 125

def parseHexDigit (c : Char) : Option Nat :=
  if c.isDigit then some (c.toNat - 48)
  else if 'a' ≤ c ∧ c ≤ 'f' then some (c.toNat - 87)
  else if 'A' ≤ c ∧ c ≤ 'F' then some (c.toNat - 55)
  else none

def escapeChar (e : Char) : Option Char :=
  if e = '"' then some '"'
  else if e = '\\' then some '\\'
  else if e = '/' then some '/'
  else if e = 'b' then some (Char.ofNat 8)
  else if e = 'f' then some (Char.ofNat 12)
  else if e = 'n' then some '\n'
  else if e = 'r' then some '\r'
  else if e = 't' then some '\t'
  else none

/-- JSON string body parser (after the opening quote): returns the decoded
content and the remainder after the closing quote. -/
def pStringAux : Nat → List Char → Option (List Char × List Char)
  | 0, _ => none
  | _, [] => none
  | fuel + 1, c :: rest =>
    if c = '"' then some ([], rest)
    else if c = '\\' then
      match rest with
      | [] => none
      | e :: rest2 =>
        if e = 'u' then
          match rest2 with
          | h1 :: h2 :: h3 :: h4 :: rest3 =>
            match parseHexDigit h1, parseHexDigit h2, parseHexDigit h3, parseHexDigit h4 with
            | some a, some b, some c2, some d =>
              (pStringAux fuel rest3).map
                (fun r => (Char.ofNat (a * 4096 + b * 256 + c2 * 16 + d) :: r.1, r.2))
            | _, _, _, _ => none
          | _ => none
        else
          match escapeChar e with
          | some ch => (pStringAux fuel rest2).map (fun r => (ch :: r.1, r.2))
          | none => none
    else if 32 ≤ c.toNat then (pStringAux fuel rest).map (fun r => (c :: r.1, r.2))
    else none

/-- JSON numeral parser: optional minus, integer part (`0` or nonzero-led),
optional fraction, optional exponent; value is mantissa times `10^exp`. -/
def pNumber (s : List Char) : Option (Int × Int × List Char) :=
  let neg := s.head? = some '-'
  let s1 := if neg then s.drop 1 else s
  match s1 with
  | [] => none
  | c :: _ =>
    if !c.isDigit then none
    else
      let intDigits := if c = '0' then ['0'] else s1.takeWhile Char.isDigit
      let s2 := s1.drop intDigits.length
      let fracDigits := if s2.head? = some '.' then (s2.drop 1).takeWhile Char.isDigit else []
      if s2.head? = some '.' ∧ fracDigits = [] then none
      else
        let s3 := if s2.head? = some '.' then s2.drop (1 + fracDigits.length) else s2
        let hasExp := s3.head? = some 'e' ∨ s3.head? = some 'E'
        let s4 := if hasExp then s3.drop 1 else s3
        let expNeg := hasExp ∧ s4.head? = some '-'
        let s5 := if hasExp ∧ (s4.head? = some '-' ∨ s4.head? = some '+') then s4.drop 1 else s4
        let expDigits := if hasExp then s5.takeWhile Char.isDigit else []
        if hasExp ∧ expDigits = [] then none
        else
          let rest := if hasExp then s5.drop expDigits.length else s3
          let mantissa : Int :=
            (if neg then -1 else 1) * Int.ofNat (natOfDigits (intDigits ++ fracDigits))
          let expVal : Int :=
            (if expNeg then -1 else 1) * Int.ofNat (natOfDigits expDigits)
          some (mantissa, expVal - Int.ofNat fracDigits.length, rest)

mutual

/-- One JSON value at the head of `s` (no leading whitespace). -/
def pValue : Nat → List Char → Option (Json × List Char)
  | 0, _ => none
  | fuel + 1, s =>
    match s with
    | [] => none
    | c :: rest =>
      if c = '"' then (pStringAux (rest.length + 1) rest).map (fun r => (Json.str r.1, r.2))
      else if c = '[' then
        match skipJsonWs rest with
        | ']' :: r2 => some (Json.arr [], r2)
        | _ =>
          match pArrayItems fuel rest with
          | some (xs, r2) => some (Json.arr xs, r2)
          | none => none
      else if c = lbrace then
        match skipJsonWs rest with
        | c2 :: r2 =>
          if c2 = rbrace then some (Json.obj [], r2)
          else
            match pObjItems fuel rest with
            | some (fs, r3) => some (Json.obj fs, r3)
            | none => none
        | [] => none
      else if c = 't' then
        if rest.take 3 = "rue".data then some (Json.bool true, rest.drop 3) else none
      else if c = 'f' then
        if rest.take 4 = "alse".data then some (Json.bool false, rest.drop 4) else none
      else if c = 'n' then
        if rest.take 3 = "ull".data then some (Json.null, rest.drop 3) else none
      else
        match pNumber s with
        | some (m, e, r2) => some (Json.num m e, r2)
        | none => none

/-- Comma-separated array elements up to the closing bracket. -/
def pArrayItems : Nat → List Char → Option (List Json × List Char)
  | 0, _ => none
  | fuel + 1, s =>
    match pValue fuel (skipJsonWs s) with
    | none => none
    | some (v, r1) =>
      match skipJsonWs r1 with
      | c :: r2 =>
        if c = ',' then
          match pArrayItems fuel r2 with
          | some (xs, r3) => some (v :: xs, r3)
          | none => none
        else if c = ']' then some ([v], r2)
        else none
      | [] => none

/-- Comma-separated object members up to the closing brace. -/
def pObjItems : Nat → List Char → Option (List (List Char × Json) × List Char)
  | 0, _ => none
  | fuel + 1, s =>
    match skipJsonWs s with
    | c :: r1 =>
      if c = '"' then
        match pStringAux (r1.length + 1) r1 with
        | none => none
        | some (key, r2) =>
          match skipJsonWs r2 with
          | ':' :: r3 =>
            match pValue fuel (skipJsonWs r3) with
            | none => none
            | some (v, r4) =>
              match skipJsonWs r4 with
              | c2 :: r5 =>
                if c2 = ',' then
                  match pObjItems fuel r5 with
                  | some (fs, r6) => some ((key, v) :: fs, r6)
                  | none => none
                else if c2 = rbrace then some ([(key, v)], r5)
                else none
              | [] => none
          | _ => none
      else none
    | [] => none

end

/-- `JSON.parse`: a single value with only whitespace around it. -/
def jsonParse (s : List Char) : Option Json :=
  match pValue (2 * s.length + 4) (skipJsonWs s) with
  | some (v, rest) => if skipJsonWs rest = [] then some v else none
  | none => none

/-- Property lookup on a parsed object: later duplicate keys win, as with
`JSON.parse`; `none` is JS `undefined`. -/
def objLookup (fields : List (List Char × Json)) (key : List Char) : Option Json :=
  fields.foldl (fun acc f => if f.1 = key then some f.2 else acc) none

/-- `value[key]` for the values reaching `validateComment`: property lookup
on objects, `undefined` on everything else. -/
def jget (j : Json) (key : List Char) : Option Json :=
  match j with
  | Json.obj fields => objLookup fields key
  | _ => none

def Json.isNull : Json → Bool
  | Json.null => true
  | _ => false

/-- The `required` list of `validateComment`. -/
def requiredFields : List (List Char) :=
  ["filename".data, "line".data, "severity".data, "category".data, "message".data]

/-- `comment[field] !== undefined && comment[field] !== null` on an access
result. -/
def fieldPresent : Option Json → Bool
  | some w => !(w.isNull)
  | none => false

/-- `comment[field]` as the exception-aware access: property access on
`null` throws a TypeError (`none` result); on every other value it behaves
like `jget` (`undefined` cannot occur as a `JSON.parse` array element). -/
def jgetE (j : Json) (key : List Char) : Option (Option Json) :=
  match j with
  | Json.null => none
  | _ => some (jget j key)

/-- The `required.every(...)` loop of `validateComment`, with the throw of
the property access propagated: `none` = the check threw, `some b` = it
returned `b`. -/
def validateFieldsE : List (List Char) → Json → Option Bool
  | [], _ => some true
  | f :: fs, comment =>
    match jgetE comment f with
    | none => none
    | some v =>
      if fieldPresent v then validateFieldsE fs comment else some false

/-- `validateComment(comment)` as run by the source: throws (`none`) on a
`null` element, otherwise decides whether every required field is defined
and non-null. -/
def validateCommentE (comment : Json) : Option Bool :=
  validateFieldsE requiredFields comment

/-- The throw-free restriction of `validateComment` (its value on every
non-null element): every required field is defined and non-null. -/
def validateComment (comment : Json) : Bool :=
  requiredFields.all (fun field => fieldPresent (jget comment field))

/-- `comments.filter(c => validateComment(c))` with the exception
propagated: `none` as soon as an element makes `validateComment` throw. -/
def filterValidE : List Json → Option (List Json)
  | [] => some []
  | c :: cs =>
    match validateCommentE c with
    | none => none
    | some b =>
      match filterValidE cs with
      | none => none
      | some rest => some (if b then c :: rest else rest)

/-! ## Fenced-block extraction and the fallback extractor -/

/-- The triple-backtick fence delimiter. -/
def fenceMark : List Char := "```".data

/-- Does `s` begin with `\s*` followed by a closing fence?  (The whitespace
class cannot contain a backtick, so the maximal run is the only candidate.) -/
def closesAt (s : List Char) : Bool :=
  startsWithL (s.dropWhile isJsWS) fenceMark

/-- Minimal offset `q` such that a closing fence (after optional
whitespace) starts at `q` — the lazy group's end position. -/
def findCloseLen : List Char → Option Nat
  | [] => none
  | s@(_ :: tl) =>
    if closesAt s then some 0 else (findCloseLen tl).map (· + 1)

/-- Capture group of `/```(?:json)?\s*([\s\S]*?)\s*```/` given the text
after the opening fence tag: greedy `\s*` eats the whitespace run, the lazy
group ends at the earliest closing fence. -/
def fenceGroupBody (s : List Char) : Option (List Char) :=
  (findCloseLen (s.dropWhile isJsWS)).map (fun q => (s.dropWhile isJsWS).take q)

/-- The fence regex tried at one start position (after the `` ``` `` was
seen): the optional `json` tag is consumed greedily. -/
def fenceGroupAt (s : List Char) : Option (List Char) :=
  if startsWithL s ("json".data) then fenceGroupBody (s.drop 4)
  else fenceGroupBody s

/-- `text.match(/```(?:json)?\s*([\s\S]*?)\s*```/)`: leftmost successful
start position wins. -/
def fenceExtract : List Char → Option (List Char)
  | [] => none
  | s@(_ :: tl) =>
    if startsWithL s fenceMark then
      match fenceGroupAt (s.drop 3) with
      | some g => some g
      | none => fenceExtract tl
    else fenceExtract tl

/-- The candidate comment accumulated by `extractCommentsFromText`
(severity/category/suggestion are fixed defaults). -/
structure FallbackComment where
  filename : List Char
  line : Nat
  message : List Char
  deriving Repr, DecidableEq

/-- The object literal pushed for a fallback candidate. -/
def fcToJson (c : FallbackComment) : Json :=
  Json.obj
    [("filename".data, Json.str c.filename),
     ("line".data, Json.num (Int.ofNat c.line) 0),
     ("severity".data, Json.str ("medium".data)),
     ("category".data, Json.str ("general".data)),
     ("message".data, Json.str c.message),
     ("suggestion".data, Json.str [])]

/-- `/line:?\s*(\d+)/i` tried at one start position: case-insensitive
`line`, optional colon, whitespace, then the digit group. -/
def lineNumMatchAt (s : List Char) : Option Nat :=
  if (s.take 4).map Char.toLower = "line".data then
    let r1 := s.drop 4
    let r2 := if r1.head? = some ':' then r1.drop 1 else r1
    let ds := (r2.dropWhile isJsWS).takeWhile Char.isDigit
    if ds = [] then none else some (natOfDigits ds)
  else none

/-- Leftmost match of `/line:?\s*(\d+)/i`. -/
def lineNumMatch : List Char → Option Nat
  | [] => lineNumMatchAt []
  | s@(_ :: tl) =>
    match lineNumMatchAt s with
    | some n => some n
    | none => lineNumMatch tl

/-- `line.split(':')[1]?.trim() || ''`. -/
def filenameOf (line : List Char) : List Char :=
  match (splitOnChar ':' line).get? 1 with
  | some seg => jsTrim seg
  | none => []

/-- Push the pending candidate, if any. -/
def flushFC (acc : List Json) (cur : Option FallbackComment) : List Json :=
  match cur with
  | some c => acc ++ [fcToJson c]
  | none => acc

/-- The line loop of `extractCommentsFromText`: a file-indicator line opens
a fresh candidate (flushing the previous one), a line-indicator line with a
trailing integer updates `line`, any other non-blank line extends the
space-joined message. -/
def extractLoop : List (List Char) → List Json → Option FallbackComment → List Json
  | [], acc, cur => flushFC acc cur
  | l :: ls, acc, cur =>
    if containsSub l ("filename:".data) || containsSub l ("File:".data) then
      extractLoop ls (flushFC acc cur) (some ⟨filenameOf l, 1, []⟩)
    else if containsSub l ("line:".data) && cur.isSome then
      match lineNumMatch l with
      | some n => extractLoop ls acc (cur.map (fun c => { c with line := n }))
      | none => extractLoop ls acc cur
    else if !(jsTrim l).isEmpty && cur.isSome then
      extractLoop ls acc (cur.map (fun c => { c with message := c.message ++ jsTrim l ++ [' '] }))
    else extractLoop ls acc cur

/-- `extractCommentsFromText(response)` with the caller's
`config.review.maxComments` bound applied at the end. -/
def extractCommentsFromText (response : List Char) (maxComments : Nat) : List Json :=
  (extractLoop (splitOnChar '\n' response) [] none).take maxComments

/-! ## parseReviewResponse -/

/-- The text handed to `JSON.parse`: the trimmed raw response, replaced by
the fenced block's interior when the fence regex matches. -/
def deFencedText (response : String) : List Char :=
  match fenceExtract (jsTrim response.data) with
  | some g => g
  | none => jsTrim response.data

/-- `parseReviewResponse(response)`: parse the de-fenced text as JSON; on a
top-level array keep the validated elements (in order) truncated to
`maxComments`; on a parse failure, a non-array value, or a TypeError thrown
by `validateComment` on a `null` array element, the `catch` falls back to
the heuristic text extractor applied to the raw response.  The function is
total: every failure path lands in the fallback, never in an error. -/
def parseReviewResponse (response : String) (maxComments : Nat) : List Json :=
  match jsonParse (deFencedText response) with
  | some (Json.arr comments) =>
    match filterValidE comments with
    | some kept => kept.take maxComments
    | none => extractCommentsFromText response.data maxComments
  | _ => extractCommentsFromText response.data maxComments

/-! ## Claims C6 and C7 -/

/-- A five-element JSON array of valid comment objects (claim C6's
example). -/
def fiveElemRaw : String :=
  "[\x7b\"filename\":\"a1\",\"line\":1,\"severity\":\"low\",\"category\":\"bugs\",\"message\":\"m1\"\x7d," ++
  "\x7b\"filename\":\"a2\",\"line\":2,\"severity\":\"low\",\"category\":\"bugs\",\"message\":\"m2\"\x7d," ++
  "\x7b\"filename\":\"a3\",\"line\":3,\"severity\":\"low\",\"category\":\"bugs\",\"message\":\"m3\"\x7d," ++
  "\x7b\"filename\":\"a4\",\"line\":4,\"severity\":\"low\",\"category\":\"bugs\",\"message\":\"m4\"\x7d," ++
  "\x7b\"filename\":\"a5\",\"line\":5,\"severity\":\"low\",\"category\":\"bugs\",\"message\":\"m5\"\x7d]"

/-- The parsed form of the first element of `fiveElemRaw`. -/
def firstElemJson : Json :=
  Json.obj
    [("filename".data, Json.str ("a1".data)),
     ("line".data, Json.num 1 0),
     ("severity".data, Json.str ("low".data)),
     ("category".data, Json.str ("bugs".data)),
     ("message".data, Json.str ("m1".data))]

/-- A valid comment object used by the C6 counterexample and witness. -/
def cSixObj : Json :=
  Json.obj
    [("filename".data, Json.str ("a".data)),
     ("line".data, Json.num 1 0),
     ("severity".data, Json.str ("low".data)),
     ("category".data, Json.str ("bugs".data)),
     ("message".data, Json.str ("m".data))]

/-- A JSON array with a `null` element before a valid comment object. -/
def nullElemRaw : String :=
  "[null,\x7b\"filename\":\"a\",\"line\":1,\"severity\":\"low\",\"category\":\"bugs\",\"message\":\"m\"\x7d]"

/-- Claim C6 counterexample: the raw text parses as a JSON array, the claim
predicts that the valid element is kept, but `validateComment(null)` throws
a TypeError (`null['filename']`), the `catch` routes to the heuristic text
extractor, and the program returns `[]` instead. -/
theorem claim_C6_counterexample :
    jsonParse (deFencedText nullElemRaw) = some (Json.arr [Json.null, cSixObj]) ∧
    ([Json.null, cSixObj].filter validateComment).take 5 = [cSixObj] ∧
    parseReviewResponse nullElemRaw 5 = [] ∧
    parseReviewResponse nullElemRaw 5 ≠
      ([Json.null, cSixObj].filter validateComment).take 5 := by
  refine ⟨rfl, rfl, rfl, ?_⟩
  intro h
  exact List.noConfusion (show ([] : List Json) = [cSixObj] from h)

theorem jgetE_eq {c : Json} (hc : c.isNull = false) (key : List Char) :
    jgetE c key = some (jget c key) := by
  cases c with
  | null => simp [Json.isNull] at hc
  | bool b => rfl
  | num m e => rfl
  | str s => rfl
  | arr xs => rfl
  | obj fs => rfl

theorem validateFieldsE_eq (fs : List (List Char)) {c : Json} (hc : c.isNull = false) :
    validateFieldsE fs c = some (fs.all (fun f => fieldPresent (jget c f))) := by
  induction fs with
  | nil => rfl
  | cons f fs ih =>
    simp only [validateFieldsE, jgetE_eq hc f, List.all_cons]
    cases hp : fieldPresent (jget c f) with
    | true => simp [hp, ih]
    | false => simp [hp]

theorem validateCommentE_eq {c : Json} (hc : c.isNull = false) :
    validateCommentE c = some (validateComment c) :=
  validateFieldsE_eq requiredFields hc

theorem filterValidE_eq {xs : List Json} (h : ∀ x ∈ xs, x.isNull = false) :
    filterValidE xs = some (xs.filter validateComment) := by
  induction xs with
  | nil => rfl
  | cons c cs ih =>
    simp only [filterValidE, validateCommentE_eq (h c (by simp)),
      ih (fun x hx => h x (by simp [hx])), List.filter_cons]

/-- Claim C6 (amended): whenever the de-fenced response parses as a JSON
array with NO `null` elements, `parseReviewResponse` returns exactly the
elements carrying all five required fields non-null (in their original
order), truncated to the first `maxComments`; in particular
`maxComments = 1` on a five-element valid array yields exactly the first
element.  (A `null` element makes `validateComment` throw, and the run
falls back to the heuristic extractor — see the counterexample.) -/
theorem claim_C6_json_array_normalization :
    (∀ (response : String) (maxComments : Nat) (xs : List Json),
      jsonParse (deFencedText response) = some (Json.arr xs) →
      (∀ x ∈ xs, x.isNull = false) →
      parseReviewResponse response maxComments = (xs.filter validateComment).take maxComments) ∧
    parseReviewResponse fiveElemRaw 1 = [firstElemJson] := by
  constructor
  · intro response maxComments xs h hnull
    unfold parseReviewResponse
    rw [h]
    simp only [filterValidE_eq hnull]
  · rfl

/-- Witness for claim C6: the general statement applied at a concrete
two-element null-free array (one valid object, one bare number that is
dropped). -/
theorem claim_C6_json_array_normalization_witness :
    parseReviewResponse "[\x7b\"filename\":\"a\",\"line\":1,\"severity\":\"low\",\"category\":\"bugs\",\"message\":\"m\"\x7d,4]" 5 =
      ([cSixObj, Json.num 4 0].filter validateComment).take 5 :=
  claim_C6_json_array_normalization.1
    "[\x7b\"filename\":\"a\",\"line\":1,\"severity\":\"low\",\"category\":\"bugs\",\"message\":\"m\"\x7d,4]" 5
    [cSixObj, Json.num 4 0]
    rfl
    (by decide)

/-- Did `jsonParse` produce a top-level array? -/
def isArrayParse : Option Json → Bool
  | some (Json.arr _) => true
  | _ => false

/-- Claim C7: when the de-fenced content does not parse as JSON, or parses
to a non-array value, `parseReviewResponse` returns exactly the heuristic
line-oriented extractor's output on the raw text (with the `maxComments`
truncation); being a total function of its inputs, it raises nothing. -/
theorem claim_C7_fallback_on_unparseable (response : String) (maxComments : Nat)
    (h : isArrayParse (jsonParse (deFencedText response)) = false) :
    parseReviewResponse response maxComments =
      extractCommentsFromText response.data maxComments := by
  unfold parseReviewResponse
  split
  · next xs heq => rw [heq] at h; simp [isArrayParse] at h
  · rfl

/-- Witness for claim C7 at a concrete non-JSON response. -/
theorem claim_C7_fallback_on_unparseable_witness :
    parseReviewResponse "filename: a.js\nline: 3\nbroken output" 4 =
      extractCommentsFromText ("filename: a.js\nline: 3\nbroken output".data) 4 :=
  claim_C7_fallback_on_unparseable "filename: a.js\nline: 3\nbroken output" 4 rfl

/-! ## Claim C9: findExistingComment (GitHubAPI) -/

/-- An existing review comment fetched from the hosting service
(`comment.path`, `comment.line`, `comment.user.login`). -/
structure ExistingComment where
  path : List Char
  line : Int
  userLogin : List Char
  deriving Repr, DecidableEq

/-- JS strict equality `existing.path === path` where the right side is the
proposed comment's (possibly non-string) `filename` value. -/
def jsStrEq (s : List Char) : Option Json → Bool
  | some (Json.str t) => s = t
  | _ => false

/-- JS strict equality `existing.line === line` for a numeric left side. -/
def jsNumEq (n : Int) : Option Json → Bool
  | some (Json.num m e) =>
    if 0 ≤ e then m * 10 ^ e.toNat = n else n * 10 ^ (-e).toNat = m
  | _ => false

/-- `findExistingComment(existingComments, path, line)`: the first comment
with strictly equal path and line whose author login contains the
(case-sensitive) substring `bot`; `null` → `none` when there is none. -/
def findExistingComment (existingComments : List ExistingComment)
    (path line : Option Json) : Option ExistingComment :=
  existingComments.find? (fun comment =>
    jsStrEq comment.path path && jsNumEq comment.line line &&
    containsSub comment.userLogin ("bot".data))

/-- Claim C9: `findExistingComment` returns a match only when path and line
are exactly equal and the author login contains the substring `bot`; when
every comment matching `(path, line)` lacks the substring it returns none;
and when several comments qualify, the first in the given order wins. -/
theorem claim_C9_find_existing (cs : List ExistingComment) (p : List Char) (n : Int) :
    (∀ c, findExistingComment cs (some (Json.str p)) (some (Json.num n 0)) = some c →
      c.path = p ∧ c.line = n ∧ containsSub c.userLogin ("bot".data) = true) ∧
    ((∀ c ∈ cs, c.path = p → c.line = n → containsSub c.userLogin ("bot".data) = false) →
      findExistingComment cs (some (Json.str p)) (some (Json.num n 0)) = none) ∧
    (∀ (i : Nat) (c : ExistingComment), cs.get? i = some c →
      c.path = p → c.line = n → containsSub c.userLogin ("bot".data) = true →
      (∀ j, j < i → ∀ c2, cs.get? j = some c2 →
        ¬(c2.path = p ∧ c2.line = n ∧ containsSub c2.userLogin ("bot".data) = true)) →
      findExistingComment cs (some (Json.str p)) (some (Json.num n 0)) = some c) := by
  have hpred : ∀ c : ExistingComment,
      (jsStrEq c.path (some (Json.str p)) && jsNumEq c.line (some (Json.num n 0)) &&
        containsSub c.userLogin ("bot".data)) = true ↔
      (c.path = p ∧ c.line = n ∧ containsSub c.userLogin ("bot".data) = true) := by
    intro c
    simp only [jsStrEq, jsNumEq, Bool.and_eq_true, decide_eq_true_eq]
    constructor
    · rintro ⟨⟨h1, h2⟩, h3⟩
      refine ⟨h1, ?_, h3⟩
      simp at h2
      omega
    · rintro ⟨h1, h2, h3⟩
      refine ⟨⟨h1, ?_⟩, h3⟩
      simp
      omega
  refine ⟨?_, ?_, ?_⟩
  · intro c hc
    have hm := List.find?_some hc
    exact (hpred c).mp hm
  · intro hall
    unfold findExistingComment
    rw [List.find?_eq_none]
    intro c hcs hc
    rcases (hpred c).mp hc with ⟨h1, h2, h3⟩
    rw [hall c hcs h1 h2] at h3
    cases h3
  · intro i c hgi hp hn hb hbefore
    induction cs generalizing i with
    | nil => simp at hgi
    | cons d ds ih =>
      cases i with
      | zero =>
        have hdc : d = c := by simpa using hgi
        subst hdc
        unfold findExistingComment
        simp only [List.find?]
        rw [(hpred d).mpr ⟨hp, hn, hb⟩]
      | succ m =>
        have hd : ¬(d.path = p ∧ d.line = n ∧ containsSub d.userLogin ("bot".data) = true) :=
          hbefore 0 (Nat.succ_pos m) d rfl
        have hdf : (jsStrEq d.path (some (Json.str p)) && jsNumEq d.line (some (Json.num n 0)) &&
            containsSub d.userLogin ("bot".data)) = false :=
          Bool.eq_false_iff.mpr (fun h => hd ((hpred d).mp h))
        unfold findExistingComment
        simp only [List.find?]
        rw [hdf]
        exact ih m (by simpa using hgi)
          (fun j hj c2 hg2 => hbefore (j + 1) (by omega) c2 (by simpa using hg2))

/-- Witness for claim C9 at a concrete comment list: the `(path, line)`
pair matches the first two comments, but only the third has a bot author;
the human-authored matches are passed over. -/
theorem claim_C9_find_existing_witness :
    (∀ c ∈ [(⟨"a.js".data, 3, "alice".data⟩ : ExistingComment),
             ⟨"a.js".data, 3, "carol".data⟩],
        c.path = "a.js".data → c.line = 3 → containsSub c.userLogin ("bot".data) = false) ∧
    findExistingComment
      [⟨"a.js".data, 3, "alice".data⟩, ⟨"a.js".data, 3, "carol".data⟩]
      (some (Json.str ("a.js".data))) (some (Json.num 3 0)) = none :=
  ⟨by decide,
   (claim_C9_find_existing
      [⟨"a.js".data, 3, "alice".data⟩, ⟨"a.js".data, 3, "carol".data⟩]
      ("a.js".data) 3).2.1 (by decide)⟩

/-! ## File filtering and reviewable-change extraction -/

/-- The anchored matcher produced by the glob-to-regex translation of
`filterFiles` (`.` escaped, `*` → any run, `?` → any single character,
other characters literal; patterns whose other characters are themselves
regex metacharacters are outside the modelled subset). -/
def suffixesOf : List Char → List (List Char)
  | [] => [[]]
  | s@(_ :: t) => s :: suffixesOf t

def globMatch : List Char → List Char → Bool
  | [], [] => true
  | [], _ :: _ => false
  | '*' :: ps, s => (suffixesOf s).any (fun t => globMatch ps t)
  | '?' :: ps, s =>
    (match s with
     | [] => false
     | _ :: s2 => globMatch ps s2)
  | c :: ps, s =>
    (match s with
     | [] => false
     | d :: s2 => c = d && globMatch ps s2)

/-- `filterFiles(files, excludePatterns)`: keep the files matching no
exclude glob; an empty pattern list is the identity. -/
def filterFiles (files : List FileChange) (excludePatterns : List (List Char)) :
    List FileChange :=
  if excludePatterns.length = 0 then files
  else
    files.filter (fun file =>
      !(excludePatterns.any (fun pattern => globMatch pattern file.filename)))

/-- One reviewable (additions-only) change record. -/
structure ReviewableChange where
  filename : List Char
  additions : Nat
  deletions : Nat
  addedLines : List LineChange
  content : List Char
  lineNumbers : List Nat
  deriving Repr, DecidableEq

/-- `extractReviewableChanges(files)`: one entry per file with at least one
addition; `lineNumbers` keeps the truthy resolved new line numbers
(`filter(Boolean)` drops both `null` and `0`). -/
def extractReviewableChanges (files : List FileChange) : List ReviewableChange :=
  files.foldl
    (fun acc file =>
      let addedLines := file.changes.filter (fun c => c.type = "addition".data)
      if 0 < addedLines.length then
        acc ++ [{ filename := file.filename
                  additions := file.additions
                  deletions := file.deletions
                  addedLines := addedLines
                  content := joinNL (addedLines.map (fun l => l.content))
                  lineNumbers := addedLines.filterMap (fun l =>
                    match l.newLineNumber with
                    | some n => if n = 0 then none else some n
                    | none => none) }]
      else acc)
    []

/-! ## Review orchestration (ReviewService.reviewPullRequest)

External collaborators are pure oracles; the second component of the result
is the ordered trace of external calls made.  The per-rule regex loops keep
their fuel parameter, so the whole run is `Option`-valued (`none` = a rule
loop failed to finish); the inter-post delay is timing-only and has no
observable effect in the model. -/

/-- One call to an external collaborator, in order of occurrence. -/
inductive ExtCall where
  | getPullRequest (prNumber : Nat)
  | getReviewComments (prNumber : Nat)
  | llmInvoke (prompt : List Char)
  | postReviewComment (prNumber : Nat) (body : List Char) (commitSha : List Char)
      (path : Option Json) (line : Option Json)
  | postReview (prNumber : Nat) (body : List Char) (event : List Char)

/-- The value returned by `reviewPullRequest`. -/
inductive RunResult where
  | skipped (reason : List Char)
  | completed (filesReviewed commentsGenerated commentsPosted commentsSkipped
      customRuleViolations : Nat) (postedComments skippedComments : List Json)

/-- The `config.review` block. -/
structure ReviewSettings where
  focusAreas : List (List Char)
  severity : List Char
  maxComments : Nat
  excludePatterns : List (List Char)

/-- The configuration consumed by the orchestrator. -/
structure AppConfig where
  enabled : Bool
  review : ReviewSettings
  rulesCustom : List Rule

/-- Responses of the external collaborators: the PR head commit, the
existing review comments, the generation service (prompt to raw text), and
the outcome of the k-th inline-comment post (`none` = success, `some msg` =
the call threw with that message). -/
structure Oracle where
  headSha : List Char
  existingComments : List ExistingComment
  llmResponse : List Char → String
  postOutcome : Nat → Option (List Char)

/-- Violations of all filtered files, each tagged with its filename
(`{...violation, filename}`), in file order. -/
def collectViolations (files : List FileChange) (rules : List Rule) (fuel : Nat) :
    Option (List (Violation × List Char)) :=
  match files with
  | [] => some []
  | f :: fs =>
    match checkCustomRules f rules fuel with
    | none => none
    | some vs =>
      match collectViolations fs rules fuel with
      | none => none
      | some rest => some (vs.map (fun v => (v, f.filename)) ++ rest)

def natToChars (n : Nat) : List Char := (Nat.repr n).data

def intToChars (i : Int) : List Char := (toString i).data

/-- Join with a separator (JS `array.join(sep)`). -/
def joinSep (sep : List Char) : List (List Char) → List Char
  | [] => []
  | [x] => x
  | x :: xs => x ++ sep ++ joinSep sep xs

/-- Rendering of a JSON numeral for string interpolation (exact for
integers; scientific notation is a model-level rendering for the rest). -/
def numToChars (m e : Int) : List Char :=
  if e = 0 then intToChars m else intToChars m ++ 'e' :: intToChars e

/-- JS string coercion `String(value)` for the modelled values; the fuel
bounds array nesting. -/
def jsToStringFuel : Nat → Json → List Char
  | _, Json.null => "null".data
  | _, Json.bool true => "true".data
  | _, Json.bool false => "false".data
  | _, Json.num m e => numToChars m e
  | _, Json.str s => s
  | 0, Json.arr _ => []
  | fuel + 1, Json.arr xs => joinSep [','] (xs.map (jsToStringFuel fuel))
  | _, Json.obj _ => "[object Object]".data

def jsToString (j : Json) : List Char := jsToStringFuel 1000 j

/-- String interpolation of a possibly-undefined value. -/
def jsShow : Option Json → List Char
  | some v => jsToString v
  | none => "undefined".data

/-- JS truthiness of a possibly-undefined value. -/
def jsTruthy : Option Json → Bool
  | some (Json.str s) => !s.isEmpty
  | some (Json.num m _) => m ≠ 0
  | some (Json.bool b) => b
  | some Json.null => false
  | some (Json.arr _) => true
  | some (Json.obj _) => true
  | none => false

/-- First value for a key in a literal lookup table. -/
def tableLookup (table : List (List Char × List Char)) (key : List Char) :
    Option (List Char) :=
  (table.find? (fun kv => kv.1 = key)).map (fun kv => kv.2)

def severityEmojiTable : List (List Char × List Char) :=
  [("high".data, "🚨".data), ("medium".data, "⚠️".data), ("low".data, "💡".data)]

def categoryEmojiTable : List (List Char × List Char) :=
  [("bugs".data, "🐛".data), ("security".data, "🔒".data), ("performance".data, "⚡".data),
   ("readability".data, "📖".data), ("maintainability".data, "🔧".data),
   ("best-practices".data, "✅".data), ("testing".data, "🧪".data),
   ("documentation".data, "📚".data)]

/-- `formatComment(comment)`: severity marker, category with emoji, the
message, the optional suggestion block and the attribution footer. -/
def formatComment (comment : Json) : List Char :=
  let sev := jget comment ("severity".data)
  let cat := jget comment ("category".data)
  let sevEmoji :=
    match tableLookup severityEmojiTable (jsShow sev) with
    | some e => e
    | none => "💭".data
  let catEmoji :=
    match tableLookup categoryEmojiTable (jsShow cat) with
    | some e => e
    | none => []
  let body1 := sevEmoji ++ " **".data ++ jsShow cat ++ "** ".data ++ catEmoji ++ "\n\n".data
  let body2 := body1 ++ jsShow (jget comment ("message".data)) ++ "\n".data
  let body3 :=
    if jsTruthy (jget comment ("suggestion".data)) then
      body2 ++ "\n**Suggestion:**\n".data ++ fenceMark ++ "\n".data ++
        jsShow (jget comment ("suggestion".data)) ++ "\n".data ++ fenceMark ++ "\n".data
    else body2
  body3 ++ "\n---\n*Generated by AI Code Review* • Severity: `".data ++
    jsShow sev ++ "`".data

/-- Increment a key's count, inserting at the end on first occurrence (JS
object property insertion order). -/
def bumpKey (acc : List (List Char × Nat)) (key : List Char) : List (List Char × Nat) :=
  if acc.any (fun kv => kv.1 = key) then
    acc.map (fun kv => if kv.1 = key then (kv.1, kv.2 + 1) else kv)
  else acc ++ [(key, 1)]

/-- The `reduce` groupings of `formatSummary` (keys are the coerced field
values, in first-occurrence order). -/
def groupCounts (comments : List Json) (field : List Char) : List (List Char × Nat) :=
  comments.foldl (fun acc c => bumpKey acc (jsShow (jget c field))) []

def lookupCount (m : List (List Char × Nat)) (key : List Char) : Option Nat :=
  (m.find? (fun kv => kv.1 = key)).map (fun kv => kv.2)

/-- `formatSummary(comments, violations)`. -/
def formatSummary (comments : List Json) (violations : List (Violation × List Char)) :
    List Char :=
  let bySeverity := groupCounts comments ("severity".data)
  let byCategory := groupCounts comments ("category".data)
  let s1 := "## 🤖 AI Code Review Summary\n\n".data
  let s2 :=
    if 0 < comments.length then
      s1 ++ "I\x27ve reviewed your code and found **".data ++ natToChars comments.length ++
        " potential improvement".data ++ (if comments.length = 1 then [] else ['s']) ++
        "**.\n\n".data ++ "### Issues by Severity:\n".data ++
        (match lookupCount bySeverity ("high".data) with
         | some k => "- 🚨 **High**: ".data ++ natToChars k ++ ['\n']
         | none => []) ++
        (match lookupCount bySeverity ("medium".data) with
         | some k => "- ⚠️ **Medium**: ".data ++ natToChars k ++ ['\n']
         | none => []) ++
        (match lookupCount bySeverity ("low".data) with
         | some k => "- 💡 **Low**: ".data ++ natToChars k ++ ['\n']
         | none => []) ++
        "\n### Issues by Category:\n".data ++
        byCategory.foldl (fun acc kv =>
          acc ++ "- **".data ++ kv.1 ++ "**: ".data ++ natToChars kv.2 ++ ['\n']) []
    else s1
  let s3 :=
    if 0 < violations.length then
      s2 ++ "\n### Custom Rule Violations: ".data ++ natToChars violations.length ++ ['\n'] ++
        violations.foldl (fun acc v =>
          acc ++ "- **".data ++ v.1.rule ++ "**: ".data ++ v.1.message ++ ['\n']) []
    else s2
  s3 ++ "\n---\n*This review was generated automatically. Please review the suggestions and apply what makes sense for your codebase.*".data

/-- The added-lines block of the prompt for one file (`lineNumbers` is
read positionally; a missing entry renders as `unknown`). -/
def promptLines (c : ReviewableChange) : List Char :=
  (c.addedLines.foldl
    (fun (acc : List Char × Nat) line =>
      (acc.1 ++
        (match c.lineNumbers.get? acc.2 with
         | some k => natToChars k
         | none => "unknown".data) ++ ": ".data ++ line.content ++ ['\n'],
       acc.2 + 1))
    ([], 0)).1

/-- The per-file section of the prompt. -/
def promptForChange (idx : Nat) (c : ReviewableChange) : List Char :=
  "\n--- File ".data ++ natToChars (idx + 1) ++ ": ".data ++ c.filename ++ " ---\n".data ++
  "Additions: ".data ++ natToChars c.additions ++ ", Deletions: ".data ++
  natToChars c.deletions ++ ['\n'] ++
  "Added lines (with line numbers):\n".data ++ promptLines c ++ ['\n']

/-- `buildReviewPrompt(changes, violations)`: fixed header with configured
focus areas, severity and comment budget, reviewer guidelines, the output
format contract, the per-file added lines, and the custom rule
violations. -/
def buildReviewPrompt (cfg : AppConfig) (changes : List ReviewableChange)
    (violations : List (Violation × List Char)) : List Char :=
  let header :=
    "You are an expert code reviewer. Please review the following code changes and provide constructive feedback.\n\n".data ++
    "Focus Areas: ".data ++ joinSep (", ".data) cfg.review.focusAreas ++ ['\n'] ++
    "Minimum Severity: ".data ++ cfg.review.severity ++ ['\n'] ++
    "Maximum Comments: ".data ++ natToChars cfg.review.maxComments ++ "\n\n".data ++
    "Guidelines:\n- Only comment on significant issues that match the focus areas\n- Provide specific, actionable feedback\n- Include line numbers in your comments\n- Be constructive and helpful, not just critical\n- Consider security, performance, maintainability, and best practices\n- Ignore minor style issues unless they impact readability significantly\n\n".data ++
    "For each issue found, respond in this JSON format:\n\x7b\n  \"filename\": \"path/to/file.js\",\n  \"line\": 42,\n  \"severity\": \"high|medium|low\",\n  \"category\": \"bugs|security|performance|readability|maintainability|best-practices|testing|documentation\",\n  \"message\": \"Clear explanation of the issue and suggested fix\",\n  \"suggestion\": \"Optional code suggestion\"\n\x7d\n\nCode Changes to Review:\n".data
  let withChanges :=
    header ++
      ((changes.foldl
        (fun (acc : List Char × Nat) c => (acc.1 ++ promptForChange acc.2 c, acc.2 + 1))
        ([], 0)).1)
  let withViolations :=
    if 0 < violations.length then
      withChanges ++ "\nCustom Rule Violations:\n".data ++
        violations.foldl (fun acc v =>
          acc ++ "- ".data ++ v.1.rule ++ ": ".data ++ v.1.message ++ " (Line ".data ++
            natToChars v.1.line ++ ")\n".data) []
    else withChanges
  withViolations ++
    "\nProvide your review as a JSON array of comment objects. If no significant issues are found, return an empty array [].\n".data

/-- `{...comment, error: err}`: set the error field, keeping the original
position when the key already exists (spreading a non-object keeps no
fields in the modelled subset). -/
def objSetError (comment : Json) (err : List Char) : Json :=
  match comment with
  | Json.obj fields =>
    if fields.any (fun f => f.1 = "error".data) then
      Json.obj (fields.map (fun f => if f.1 = "error".data then (f.1, Json.str err) else f))
    else Json.obj (fields ++ [("error".data, Json.str err)])
  | _ => Json.obj [("error".data, Json.str err)]

/-- Accumulator of the posting loop. -/
structure PostState where
  posted : List Json
  skippedC : List Json
  calls : List ExtCall
  attempts : Nat

/-- The posting loop of `reviewPullRequest`: skip a comment with an
existing bot comment at its `(filename, line)`, otherwise post it; a
throwing post is caught and recorded as skipped with its error. -/
def postLoop (prNumber : Nat) (o : Oracle) (sha : List Char)
    (existing : List ExistingComment) : List Json → PostState → PostState
  | [], st => st
  | comment :: rest, st =>
    let fname := jget comment ("filename".data)
    let cline := jget comment ("line".data)
    match findExistingComment existing fname cline with
    | some _ =>
      postLoop prNumber o sha existing rest { st with skippedC := st.skippedC ++ [comment] }
    | none =>
      let body := formatComment comment
      let call := ExtCall.postReviewComment prNumber body sha fname cline
      match o.postOutcome st.attempts with
      | none =>
        postLoop prNumber o sha existing rest
          { st with posted := st.posted ++ [comment]
                    calls := st.calls ++ [call]
                    attempts := st.attempts + 1 }
      | some err =>
        postLoop prNumber o sha existing rest
          { st with skippedC := st.skippedC ++ [objSetError comment err]
                    calls := st.calls ++ [call]
                    attempts := st.attempts + 1 }

/-- Steps 5–11 of the run, reached only after all four precondition checks
pass: rule checking, the two hosting-service fetches, the single
generation-service call, the posting loop and the optional summary. -/
def reviewBody (cfg : AppConfig) (prNumber : Nat) (o : Oracle)
    (filteredFiles : List FileChange) (reviewableChanges : List ReviewableChange)
    (fuel : Nat) : Option (RunResult × List ExtCall) :=
  match (if 0 < cfg.rulesCustom.length then
          collectViolations filteredFiles cfg.rulesCustom fuel
         else some []) with
  | none => none
  | some customRuleViolations =>
    let commitSha := o.headSha
    let existing := o.existingComments
    let prompt := buildReviewPrompt cfg reviewableChanges customRuleViolations
    let raw := o.llmResponse prompt
    let llmComments := parseReviewResponse raw cfg.review.maxComments
    let calls0 := [ExtCall.getPullRequest prNumber, ExtCall.getReviewComments prNumber,
      ExtCall.llmInvoke prompt]
    let st := postLoop prNumber o commitSha existing llmComments ⟨[], [], calls0, 0⟩
    let st2 :=
      if 0 < st.posted.length then
        { st with calls := st.calls ++
            [ExtCall.postReview prNumber (formatSummary st.posted customRuleViolations)
              ("COMMENT".data)] }
      else st
    some (RunResult.completed reviewableChanges.length llmComments.length
      st2.posted.length st2.skippedC.length customRuleViolations.length
      st2.posted st2.skippedC, st2.calls)

/-- `reviewPullRequest(prNumber, diffText)`: the four precondition checks
in source order, then the externally-visible body. -/
def reviewPullRequest (cfg : AppConfig) (prNumber : Nat) (diffText : String)
    (o : Oracle) (fuel : Nat) : Option (RunResult × List ExtCall) :=
  if cfg.enabled = false then some (RunResult.skipped ("disabled".data), [])
  else if (parseDiff diffText).length = 0 then
    some (RunResult.skipped ("no-changes".data), [])
  else if (filterFiles (parseDiff diffText) cfg.review.excludePatterns).length = 0 then
    some (RunResult.skipped ("all-excluded".data), [])
  else if (extractReviewableChanges
      (filterFiles (parseDiff diffText) cfg.review.excludePatterns)).length = 0 then
    some (RunResult.skipped ("no-additions".data), [])
  else
    reviewBody cfg prNumber o
      (filterFiles (parseDiff diffText) cfg.review.excludePatterns)
      (extractReviewableChanges (filterFiles (parseDiff diffText) cfg.review.excludePatterns))
      fuel

/-! ## Claim C8 -/

/-- Claim C8: each precondition check short-circuits to its
`skipped(reason)` result, in source order, with NO external collaborator
call recorded: `enabled = false` → disabled; a diff parsing to zero files →
no-changes; zero files after filtering → all-excluded; zero reviewable
changes → no-additions. -/
theorem claim_C8_skip_short_circuits (cfg : AppConfig) (prNumber : Nat)
    (diffText : String) (o : Oracle) (fuel : Nat) :
    (cfg.enabled = false →
      reviewPullRequest cfg prNumber diffText o fuel =
        some (RunResult.skipped ("disabled".data), [])) ∧
    (cfg.enabled = true → parseDiff diffText = [] →
      reviewPullRequest cfg prNumber diffText o fuel =
        some (RunResult.skipped ("no-changes".data), [])) ∧
    (cfg.enabled = true → parseDiff diffText ≠ [] →
      filterFiles (parseDiff diffText) cfg.review.excludePatterns = [] →
      reviewPullRequest cfg prNumber diffText o fuel =
        some (RunResult.skipped ("all-excluded".data), [])) ∧
    (cfg.enabled = true → parseDiff diffText ≠ [] →
      filterFiles (parseDiff diffText) cfg.review.excludePatterns ≠ [] →
      extractReviewableChanges (filterFiles (parseDiff diffText) cfg.review.excludePatterns) = [] →
      reviewPullRequest cfg prNumber diffText o fuel =
        some (RunResult.skipped ("no-additions".data), [])) := by
  refine ⟨?_, ?_, ?_, ?_⟩
  · intro h
    unfold reviewPullRequest
    simp [h]
  · intro he hp
    unfold reviewPullRequest
    simp [he, hp]
  · intro he hp hf
    unfold reviewPullRequest
    simp [he, hp, hf, List.length_eq_zero]
  · intro he hp hf hr
    unfold reviewPullRequest
    simp [he, hp, hf, hr, List.length_eq_zero]

/-- The trivial collaborator oracle used by the C8 witness. -/
def oracle0 : Oracle := ⟨[], [], fun _ => "", fun _ => none⟩

def settings0 : ReviewSettings := ⟨[], [], 0, []⟩

def settingsExcl : ReviewSettings := ⟨[], [], 0, ["*".data]⟩

def cfgOff : AppConfig := ⟨false, settings0, []⟩

def cfgOn : AppConfig := ⟨true, settings0, []⟩

def cfgExcl : AppConfig := ⟨true, settingsExcl, []⟩

/-- Witness for claim C8: all four skip cases at concrete inputs. -/
theorem claim_C8_skip_short_circuits_witness :
    reviewPullRequest cfgOff 1 "diff --git a/x b/x\n@@ -1 +1 @@\n+a" oracle0 3 =
      some (RunResult.skipped ("disabled".data), []) ∧
    reviewPullRequest cfgOn 1 "" oracle0 3 =
      some (RunResult.skipped ("no-changes".data), []) ∧
    reviewPullRequest cfgExcl 1 "diff --git a/x b/x\n@@ -1 +1 @@\n+a" oracle0 3 =
      some (RunResult.skipped ("all-excluded".data), []) ∧
    reviewPullRequest cfgOn 1 "diff --git a/x b/x\n@@ -1,1 +0,0 @@\n-a" oracle0 3 =
      some (RunResult.skipped ("no-additions".data), []) :=
  ⟨(claim_C8_skip_short_circuits cfgOff 1 "diff --git a/x b/x\n@@ -1 +1 @@\n+a" oracle0 3).1 rfl,
   (claim_C8_skip_short_circuits cfgOn 1 "" oracle0 3).2.1 rfl (by decide),
   (claim_C8_skip_short_circuits cfgExcl 1 "diff --git a/x b/x\n@@ -1 +1 @@\n+a" oracle0 3).2.2.1
     rfl (by decide) (by decide),
   (claim_C8_skip_short_circuits cfgOn 1 "diff --git a/x b/x\n@@ -1,1 +0,0 @@\n-a" oracle0 3).2.2.2
     rfl (by decide) (by decide) (by decide)⟩

end CodeReview
